import Mathlib

/-!
# Open-addressing hash table (`questao6.cpp`)

A shallow embedding of the class `hashEA` of
`Módulo 3/Tabelas Hash/Exercícios/questao6.cpp`.

Modelling conventions.

* `std::string` is a Lean `String`; its `char` sequence is the UTF-8 encoding of the
  string, and a plain `char` is signed (the usual x86-64 ABI), so a byte `b ≥ 128`
  reaches the `unsigned` arithmetic of `posicao` as `2^32 - 256 + b`.
* `unsigned` is 32 bits wide.  The hash accumulator of `posicao` wraps, so it is reduced
  modulo `2^32` explicitly.  `capacidade` and `tamanho` are natural numbers: the only
  arithmetic on them is `tamanho++`, `tamanho--` (guarded by `tamanho == 0`),
  `(pos + 1) % capacidade` and `capacidade * 2`; the last one would need an array of
  `2^31` records to wrap and is taken not to.
* `int` values are `Int` (they are only stored and compared, never computed with).
* A member function returns `Option (Except Excecao α × hashEA)`: `none` when the C++
  call has no result at all (a loop that never ends, a division by zero, an access outside
  the array); otherwise the outcome (the value returned or the exception thrown) together
  with the table as the call leaves it.
* The comparison `tamanho > capacidade * 0.7` is a comparison of binary64 numbers; it is
  modelled exactly, with integers (see `acimaDoLimite`).
-/

/-- The record `struct dado`. -/
structure dado where
  assunto : String
  nomeInteressado : String
  tipo : Char
  numeroProcesso : Int
deriving DecidableEq, Repr

/-- The `operator==` of `dado`: both conjuncts compare `numeroProcesso`. -/
def opIgual (d1 d2 : dado) : Bool :=
  d1.numeroProcesso == d2.numeroProcesso && d1.numeroProcesso == d2.numeroProcesso

/-- The `operator!=` of `dado`: both disjuncts compare `numeroProcesso`. -/
def opDiferente (d1 d2 : dado) : Bool :=
  d1.numeroProcesso != d2.numeroProcesso || d1.numeroProcesso != d2.numeroProcesso

def UMPRIMO : Nat := 13

/-- Slots of the array that have not been used yet. -/
def INVALIDO : dado := ⟨"", "", '1', -1⟩

/-- Slots of the array that were used and then removed. -/
def REMOVIDO : dado := ⟨"", "", '2', -2⟩

/-- The `int` constant `POSINVALIDA = -1`, the "no position" answer of `buscarChave`;
a position found is `some pos`. -/
def POSINVALIDA : Option Nat := none

/-- The exceptions thrown by the member functions, one per message. -/
inductive Excecao where
  /-- `invalid_argument("Chave inválida.")` -/
  | chaveInvalida
  /-- `runtime_error("Tabela hash cheia.")` -/
  | tabelaCheia
  /-- `runtime_error("Inserção de chave que já existe.")` -/
  | chaveJaExiste
  /-- `runtime_error("Impossível remover de hash vazia.")` -/
  | hashVazia
  /-- `runtime_error("Chave não encontrada para remoção.")` -/
  | naoEncontradaRemocao
  /-- `runtime_error("Chave não encontrada para consulta.")` -/
  | naoEncontradaConsulta
deriving DecidableEq, Repr

/-- The private fields of `class hashEA`. -/
structure hashEA where
  vetDados : List dado
  capacidade : Nat
  tamanho : Nat
deriving DecidableEq, Repr

/-- The UTF-8 bytes of one character. -/
def bytesDoCaractere (c : Char) : List Nat :=
  let v := c.toNat
  if v < 128 then [v]
  else if v < 2048 then [192 + v / 64, 128 + v % 64]
  else if v < 65536 then [224 + v / 4096, 128 + v / 64 % 64, 128 + v % 64]
  else [240 + v / 262144, 128 + v / 4096 % 64, 128 + v / 64 % 64, 128 + v % 64]

/-- The value `chave[i]` (a signed `char`) takes once converted to `unsigned`. -/
def charParaUnsigned (b : Nat) : Nat :=
  if b < 128 then b else 2 ^ 32 - 256 + b

/-- One round of the loop of `posicao`: `pos = UMPRIMO * pos + chave[i]` in `unsigned`. -/
def passoPosicao (pos : Nat) (b : Nat) : Nat :=
  (UMPRIMO * pos + charParaUnsigned b) % 2 ^ 32

/-- The value of `pos` when the loop of `posicao` ends. -/
def acumularPosicao (chave : String) : Nat :=
  chave.toList.foldl (fun pos c => (bytesDoCaractere c).foldl passoPosicao pos) 1

/-- The constructor `hashEA::hashEA(cap)`. -/
def hashEA.criar (cap : Nat) : hashEA :=
  { vetDados := List.replicate cap INVALIDO, capacidade := cap, tamanho := 0 }

/-- The member `hashEA::posicao`; `pos % capacidade` has no value when `capacidade` is 0. -/
def hashEA.posicao (t : hashEA) (chave : String) : Option Nat :=
  if t.capacidade = 0 then none else some (acumularPosicao chave % t.capacidade)

/-- The `do ... while (pos != posFinal)` loop of `buscarChave`, run for at most `n` rounds
from `pos`. -/
def hashEA.buscarChaveLaco (t : hashEA) (chave : String) (posFinal : Nat) :
    Nat → Nat → Option (Option Nat)
  | 0, _ => none
  | n + 1, pos =>
    match t.vetDados[pos]? with
    | none => none
    | some umDado =>
      if opIgual umDado INVALIDO then some POSINVALIDA
      else if umDado.nomeInteressado = chave then some (some pos)
      else if (pos + 1) % t.capacidade ≠ posFinal then
        hashEA.buscarChaveLaco t chave posFinal n ((pos + 1) % t.capacidade)
      else some POSINVALIDA

/-- The member `hashEA::buscarChave`.  The loop comes back to `posFinal` after at most
`capacidade` rounds. -/
def hashEA.buscarChave (t : hashEA) (chave : String) : Option (Option Nat) :=
  match t.posicao chave with
  | none => none
  | some pos => t.buscarChaveLaco chave pos t.capacidade pos

/-- The placement loop
`while ((vet[pos] != INVALIDO) && (vet[pos] != REMOVIDO)) pos = (pos + 1) % capacidade;`
of `inserir` and of `redimensionarCapacidade`, run for at most `n` rounds.  The array does
not change while the loop runs and after `capacidade` rounds every slot has been seen, so
with `n = capacidade` the answer `none` stands for a loop that never ends. -/
def lacoPosicaoLivre (vet : List dado) (capacidade : Nat) : Nat → Nat → Option Nat
  | 0, _ => none
  | n + 1, pos =>
    match vet[pos]? with
    | none => none
    | some d =>
      if opDiferente d INVALIDO && opDiferente d REMOVIDO then
        lacoPosicaoLivre vet capacidade n ((pos + 1) % capacidade)
      else some pos

/-- The numerator, over `2^53`, of the binary64 number written `0.7`. -/
def MANTISSA07 : Nat := 6305039478318694

/-- Number of binary digits of `x`, for `x < 2^n`. -/
def numBits : Nat → Nat → Nat
  | 0, _ => 0
  | n + 1, x => if x = 0 then 0 else numBits n (x / 2) + 1

/-- Rounding of the real number `x / 2^53` to binary64 (53 significant bits, ties to
even); the result is again a numerator over `2^53`.  Meant for `x < 2^128`. -/
def arredondar53 (x : Nat) : Nat :=
  let bits := numBits 128 x
  if bits ≤ 53 then x
  else
    let desl := bits - 53
    let q := x / 2 ^ desl
    let r := x % 2 ^ desl
    if 2 ^ desl < 2 * r ∨ (2 * r = 2 ^ desl ∧ q % 2 = 1) then (q + 1) * 2 ^ desl
    else q * 2 ^ desl

/-- The test `tamanho > (capacidade * 0.7)` of `inserir`: both operands are converted to
binary64 (exactly, they are below `2^32`), the product is rounded once. -/
def acimaDoLimite (tamanho capacidade : Nat) : Bool :=
  decide (arredondar53 (capacidade * MANTISSA07) < tamanho * 2 ^ 53)

/-- The copying loop of `redimensionarCapacidade` over the slots of the old array that
are still to be visited; `t` carries the new `capacidade`. -/
def hashEA.redimensionarLaco (t : hashEA) :
    List dado → List dado → Nat → Option (List dado × Nat)
  | [], vetSuporte, tamanho => some (vetSuporte, tamanho)
  | d :: resto, vetSuporte, tamanho =>
    if opDiferente d INVALIDO && opDiferente d REMOVIDO then
      match t.posicao d.nomeInteressado with
      | none => none
      | some pos =>
        match lacoPosicaoLivre vetSuporte t.capacidade t.capacidade pos with
        | none => none
        | some pos => hashEA.redimensionarLaco t resto (vetSuporte.set pos d) (tamanho + 1)
    else hashEA.redimensionarLaco t resto vetSuporte tamanho

/-- The member `hashEA::redimensionarCapacidade`.  The loop reads `vetDados[i]` for
`i < capacidadeAnt`, which needs at least that many slots. -/
def hashEA.redimensionarCapacidade (t : hashEA) : Option hashEA :=
  let capacidadeAnt := t.capacidade
  let t1 : hashEA := { t with capacidade := t.capacidade * 2 }
  let vetSuporte := List.replicate t1.capacidade INVALIDO
  if capacidadeAnt ≤ t.vetDados.length then
    match t1.redimensionarLaco (t.vetDados.take capacidadeAnt) vetSuporte 0 with
    | none => none
    | some (vetSuporte, tamanho) =>
      some { vetDados := vetSuporte, capacidade := t1.capacidade, tamanho := tamanho }
  else none

/-- The member `hashEA::inserir`. -/
def hashEA.inserir (t : hashEA) (assunto interessado : String) (tipo : Char) (valor : Int) :
    Option (Except Excecao Unit × hashEA) :=
  if interessado = "" then some (.error .chaveInvalida, t)
  else if t.tamanho = t.capacidade then some (.error .tabelaCheia, t)
  else
    match t.buscarChave interessado with
    | none => none
    | some (some _) => some (.error .chaveJaExiste, t)
    | some none =>
      match t.posicao interessado with
      | none => none
      | some pos =>
        match lacoPosicaoLivre t.vetDados t.capacidade t.capacidade pos with
        | none => none
        | some pos =>
          let t1 : hashEA :=
            { t with
              vetDados := t.vetDados.set pos ⟨assunto, interessado, tipo, valor⟩
              tamanho := t.tamanho + 1 }
          if acimaDoLimite t1.tamanho t1.capacidade then
            match t1.redimensionarCapacidade with
            | none => none
            | some t2 => some (.ok (), t2)
          else some (.ok (), t1)

/-- The member `hashEA::remover`. -/
def hashEA.remover (t : hashEA) (chave : String) : Option (Except Excecao Unit × hashEA) :=
  if t.tamanho = 0 then some (.error .hashVazia, t)
  else
    match t.buscarChave chave with
    | none => none
    | some none => some (.error .naoEncontradaRemocao, t)
    | some (some pos) =>
      some (.ok (), { t with vetDados := t.vetDados.set pos REMOVIDO, tamanho := t.tamanho - 1 })

/-- The member `hashEA::consultar`. -/
def hashEA.consultar (t : hashEA) (chave : String) : Option (Except Excecao Int × hashEA) :=
  match t.buscarChave chave with
  | none => none
  | some none => some (.error .naoEncontradaConsulta, t)
  | some (some pos) =>
    match t.vetDados[pos]? with
    | none => none
    | some d => some (.ok d.numeroProcesso, t)

/-- A call of one of the three public member functions that change or read the table. -/
inductive Operacao where
  | inserir (assunto interessado : String) (tipo : Char) (valor : Int)
  | remover (chave : String)
  | consultar (chave : String)
deriving DecidableEq, Repr

/-- One call: the outcome (`some v` for the value `consultar` returns) and the table the
call leaves. -/
def hashEA.chamar (t : hashEA) : Operacao → Option (Except Excecao (Option Int) × hashEA)
  | .inserir assunto interessado tipo valor =>
    (t.inserir assunto interessado tipo valor).map fun r => (r.1.map fun _ => none, r.2)
  | .remover chave => (t.remover chave).map fun r => (r.1.map fun _ => none, r.2)
  | .consultar chave => (t.consultar chave).map fun r => (r.1.map some, r.2)

/-- The table left by a sequence of calls, the way the driver `main` makes them: an
exception is caught and the next call follows. -/
def hashEA.executarTodas (t : hashEA) : List Operacao → Option hashEA
  | [] => some t
  | op :: ops =>
    match t.chamar op with
    | none => none
    | some r => hashEA.executarTodas r.2 ops

/-- The tables some sequence of calls builds from `hashEA(cap)`. -/
def Alcancavel (cap : Nat) (t : hashEA) : Prop :=
  ∃ ops : List Operacao, (hashEA.criar cap).executarTodas ops = some t

/-- The test the code applies to a slot that holds a record:
`(d != INVALIDO) && (d != REMOVIDO)`. -/
def ocupado (d : dado) : Bool :=
  opDiferente d INVALIDO && opDiferente d REMOVIDO

/-- Number of occupied slots of the array. -/
def hashEA.numOcupados (t : hashEA) : Nat :=
  t.vetDados.countP ocupado

/-! ## Example tables

Tables of capacity 6, the capacity `main` uses.  With 6 slots `posicao` sends `""` and
`"f"` to slot 1 (`1 % 6` and `(13 + 102) % 6`), `"alice"` to slot 1, and `"a"` and `"g"`
both to slot 2 (`(13 + 97) % 6` and `(13 + 103) % 6`). -/

/-- A record of the examples. -/
def registro (chave : String) (valor : Int) : dado :=
  ⟨"s", chave, 'x', valor⟩

/-- The table `hashEA(6)` after `inserir("s", "alice", 'x', -1)`. -/
def tabelaAliceMenosUm : hashEA :=
  ⟨[INVALIDO, registro "alice" (-1), INVALIDO, INVALIDO, INVALIDO, INVALIDO], 6, 1⟩

/-- The table `hashEA(6)` after inserting `"f"` and `"a"` and removing `"f"`. -/
def tabelaLapideF : hashEA :=
  ⟨[INVALIDO, REMOVIDO, registro "a" 2, INVALIDO, INVALIDO, INVALIDO], 6, 1⟩

/-- The table `tabelaLapideF` after `remover("")`: the same array, `tamanho` 0. -/
def tabelaLapideFZero : hashEA :=
  ⟨[INVALIDO, REMOVIDO, registro "a" 2, INVALIDO, INVALIDO, INVALIDO], 6, 0⟩

/-- The table `hashEA(6)` after inserting and removing `"alice"`. -/
def tabelaLapideAlice : hashEA :=
  ⟨[INVALIDO, REMOVIDO, INVALIDO, INVALIDO, INVALIDO, INVALIDO], 6, 0⟩

/-- The table `hashEA(6)` after inserting `"a"` and `"g"`, removing `"a"` and inserting
`"a"` again with the value -1. -/
def tabelaGEscondido : hashEA :=
  ⟨[INVALIDO, INVALIDO, registro "a" (-1), registro "g" 2, INVALIDO, INVALIDO], 6, 2⟩

/-- The table `tabelaGEscondido` after `inserir("s", "g", 'x', 7)`. -/
def tabelaGDuplicado : hashEA :=
  ⟨[INVALIDO, INVALIDO, registro "g" 7, registro "g" 2, INVALIDO, INVALIDO], 6, 3⟩

/-- The table inside `inserir("s", "a", 'x', -2)` on `hashEA(1)` when
`redimensionarCapacidade` is entered. -/
def tabelaAntesDeRedimensionar : hashEA :=
  ⟨[registro "a" (-2)], 1, 1⟩


/-- The table `hashEA(1)` after `inserir("s", "a", 'x', -2)`. -/
def tabelaDepoisDeRedimensionar : hashEA :=
  ⟨[INVALIDO, INVALIDO], 2, 0⟩

/-- The table `tabelaGDuplicado` after `remover("g")`. -/
def tabelaGRemovidoUmaVez : hashEA :=
  ⟨[INVALIDO, INVALIDO, REMOVIDO, registro "g" 2, INVALIDO, INVALIDO], 6, 2⟩

/-- The table `hashEA(6)` after `inserir("s", "a", 'x', -2)`. -/
def tabelaAMenosDois : hashEA :=
  ⟨[INVALIDO, INVALIDO, registro "a" (-2), INVALIDO, INVALIDO, INVALIDO], 6, 1⟩

/-- The table `hashEA(6)` after `inserir("s", "a", 'x', -2)` and `inserir("s", "g", 'x', 5)`:
the second record took the slot of the first. -/
def tabelaGSobreA : hashEA :=
  ⟨[INVALIDO, INVALIDO, registro "g" 5, INVALIDO, INVALIDO, INVALIDO], 6, 2⟩

/-- The table of the scenario of the specification after `inserir alice 1`,
`inserir bob 2`. -/
def tabelaAliceBob : hashEA :=
  ⟨[INVALIDO, ⟨"s", "alice", 'a', 1⟩, ⟨"s", "bob", 'b', 2⟩, INVALIDO, INVALIDO, INVALIDO], 6, 2⟩

/-- The table of the scenario after `remover alice`. -/
def tabelaBob : hashEA :=
  ⟨[INVALIDO, REMOVIDO, ⟨"s", "bob", 'b', 2⟩, INVALIDO, INVALIDO, INVALIDO], 6, 1⟩

/-- The table of the scenario after `inserir alice 3`. -/
def tabelaAliceTresBob : hashEA :=
  ⟨[INVALIDO, ⟨"s", "alice", 'a', 3⟩, ⟨"s", "bob", 'b', 2⟩, INVALIDO, INVALIDO, INVALIDO], 6, 2⟩

/-- The table `hashEA(2)` after `inserir("s", "a", 'x', 1)` and `inserir("s", "b", 'x', 2)`:
the second call doubled the capacity. -/
def tabelaABQuatro : hashEA :=
  ⟨[INVALIDO, INVALIDO, registro "a" 1, registro "b" 2], 4, 2⟩

/-- The calls `inserir("s", c, 'x', i)` for `i < n`, the key `c` being the single
character of code `48 + i` (`"0"`, `"1"`, ...). -/
def insercoesDistintas (n : Nat) : List Operacao :=
  (List.range n).map fun i =>
    Operacao.inserir "s" (String.singleton (Char.ofNat (48 + i))) 'x' (Int.ofNat i)

/-- The number `P(key)` in the words of the specification: start from 1 and apply
`pos := 13 * pos + charCode` for each character of the key in order, in unbounded
arithmetic; `charCode` is the value the `char` has as an `unsigned` (its code, for ASCII). -/
def polinomioDaChave (chave : String) : Nat :=
  chave.toList.foldl
    (fun pos c => (bytesDoCaractere c).foldl (fun p b => UMPRIMO * p + charParaUnsigned b) pos) 1

/-- The table `hashEA(6)` after `inserir f, a, b, c`, `remover f`, three times
`remover ""`, and `inserir f, d, e`: every slot is occupied and `tamanho` is 3. -/
def tabelaSemVaga : hashEA :=
  ⟨[registro "e" 7, registro "f" 5, registro "a" 2, registro "b" 3, registro "c" 4,
    registro "d" 6], 6, 3⟩

/-- The calls that build `tabelaSemVaga` from `hashEA(6)`. -/
def chamadasSemVaga : List Operacao :=
  [.inserir "s" "f" 'x' 1, .inserir "s" "a" 'x' 2, .inserir "s" "b" 'x' 3,
    .inserir "s" "c" 'x' 4, .remover "f", .remover "", .remover "", .remover "",
    .inserir "s" "f" 'x' 5, .inserir "s" "d" 'x' 6, .inserir "s" "e" 'x' 7]

/-- The table `hashEA(6)` after `inserir a`, `inserir g`, `remover a`. -/
def tabelaLapideAG : hashEA :=
  ⟨[INVALIDO, INVALIDO, REMOVIDO, registro "g" 2, INVALIDO, INVALIDO], 6, 1⟩


/-! # Static circular queue (`Questão 1 - Fila estatica.cpp`)

A shallow embedding of the class `Fila` of
`Módulo 2/Fila/Execícios/Atividades/Questão 1 - Fila estatica.cpp`.  The positions are
`int`s, modelled by `Int`, with `%` the truncating remainder of C++; a member function
returns `none` when it reads or writes outside the array or never returns. -/

def FILAVAZIA : Int := -1

def CAPACIDADE_FILA : Int := 6

/-- The record `struct Dado`. -/
structure Dado where
  nome : String
  assunto : String
  tipo : Char
  nProcesso : Int
deriving DecidableEq, Repr

/-- The private fields of `class Fila`. -/
structure Fila where
  mFila : List Dado
  posPrimeiro : Int
  posUltimo : Int
deriving DecidableEq, Repr

/-- The exceptions thrown by the member functions of `Fila`. -/
inductive ErroFila where
  /-- `runtime_error("Erro: fila vazia!")` -/
  | filaVazia
  /-- `runtime_error("Erro: fila cheia!")` -/
  | filaCheia
deriving DecidableEq, Repr

/-- The constructor `Fila::Fila()`; `memoria i` is what the fresh array `new Dado[6]`
happens to hold in cell `i`. -/
def Fila.criar (memoria : Nat → Dado) : Fila :=
  { mFila := (List.range CAPACIDADE_FILA.toNat).map memoria
    posPrimeiro := FILAVAZIA
    posUltimo := FILAVAZIA }

/-- The read `mFila[i]`, which has a value for `0 ≤ i` inside the array only. -/
def Fila.ler (f : Fila) (i : Int) : Option Dado :=
  if i < 0 then none else f.mFila[i.toNat]?

/-- The member `Fila::Vazia`. -/
def Fila.Vazia (f : Fila) : Bool :=
  f.posPrimeiro == FILAVAZIA && f.posUltimo == FILAVAZIA

/-- The member `Fila::Cheia`. -/
def Fila.Cheia (f : Fila) : Bool :=
  (f.posPrimeiro - 1 == f.posUltimo) || (f.posPrimeiro == 0 && f.posUltimo == 5)

/-- The member `Fila::Desenfileirar`. -/
def Fila.Desenfileirar (f : Fila) : Option (Except ErroFila Dado × Fila) :=
  if f.Vazia then some (.error .filaVazia, f)
  else
    match f.ler f.posPrimeiro with
    | none => none
    | some Aux =>
      if f.posPrimeiro = f.posUltimo then
        some (.ok Aux, { f with posUltimo := -1, posPrimeiro := -1 })
      else
        some (.ok Aux, { f with posPrimeiro := (f.posPrimeiro + 1).tmod CAPACIDADE_FILA })

/-- The member `Fila::Enfileirar`. -/
def Fila.Enfileirar (f : Fila) (d : Dado) : Option (Except ErroFila Unit × Fila) :=
  if f.Cheia then some (.error .filaCheia, f)
  else
    let posPrimeiro := if f.posPrimeiro = FILAVAZIA then f.posPrimeiro + 1 else f.posPrimeiro
    let posUltimo := (f.posUltimo + 1).tmod CAPACIDADE_FILA
    if 0 ≤ posUltimo ∧ posUltimo.toNat < f.mFila.length then
      some (.ok (),
        { mFila := f.mFila.set posUltimo.toNat d, posPrimeiro := posPrimeiro,
          posUltimo := posUltimo })
    else none

/-- The loop `while (not Vazia()) Desenfileirar();` of `LimparTudo`, run for at most `n`
tests of the condition. -/
def Fila.LimparTudoLaco : Nat → Fila → Option Fila
  | 0, _ => none
  | n + 1, f =>
    if f.Vazia then some f
    else
      match f.Desenfileirar with
      | none => none
      | some r => Fila.LimparTudoLaco n r.2

/-- The member `Fila::LimparTudo`.  Seven tests of the loop condition are enough for the
six cells of the array; the result does not depend on a larger bound. -/
def Fila.LimparTudo (f : Fila) : Option Fila :=
  Fila.LimparTudoLaco (CAPACIDADE_FILA.toNat + 1) f

/-- A call of one of the three member functions that change the queue. -/
inductive OperacaoFila where
  | Enfileirar (d : Dado)
  | Desenfileirar
  | LimparTudo
deriving DecidableEq, Repr

/-- One call on the queue: the outcome (`some d` for the element `Desenfileirar` returns)
and the queue it leaves. -/
def Fila.chamar (f : Fila) : OperacaoFila → Option (Except ErroFila (Option Dado) × Fila)
  | .Enfileirar d => (f.Enfileirar d).map fun r => (r.1.map fun _ => none, r.2)
  | .Desenfileirar => f.Desenfileirar.map fun r => (r.1.map some, r.2)
  | .LimparTudo => f.LimparTudo.map fun f' => (.ok none, f')

/-- A sequence of calls, exceptions caught as in `main`: the outcomes in order and the
queue left. -/
def Fila.executarTodas (f : Fila) :
    List OperacaoFila → Option (List (Except ErroFila (Option Dado)) × Fila)
  | [] => some ([], f)
  | op :: ops =>
    match f.chamar op with
    | none => none
    | some r =>
      match Fila.executarTodas r.2 ops with
      | none => none
      | some rs => some (r.1 :: rs.1, rs.2)

/-- The FIFO list of at most 6 elements the queue is meant to be, in the words of the
specification: `Enfileirar` appends at the back unless 6 elements are held,
`Desenfileirar` returns and removes the oldest element unless none is held, `LimparTudo`
empties the list. -/
def listaFIFO (l : List Dado) : OperacaoFila → Except ErroFila (Option Dado) × List Dado
  | .Enfileirar d => if l.length = 6 then (.error .filaCheia, l) else (.ok none, l ++ [d])
  | .Desenfileirar =>
    match l with
    | [] => (.error .filaVazia, [])
    | d :: resto => (.ok (some d), resto)
  | .LimparTudo => (.ok none, [])

/-- The outcomes and the final list of a sequence of calls on the FIFO list. -/
def listaFIFOTodas (l : List Dado) :
    List OperacaoFila → List (Except ErroFila (Option Dado)) × List Dado
  | [] => ([], l)
  | op :: ops =>
    ((listaFIFO l op).1 :: (listaFIFOTodas (listaFIFO l op).2 ops).1,
      (listaFIFOTodas (listaFIFO l op).2 ops).2)

/-- The elements the queue holds, oldest first: the cells from `posPrimeiro` to
`posUltimo`, going round the array. -/
def Fila.conteudo (f : Fila) : List Dado :=
  if f.Vazia then []
  else
    (List.range ((f.posUltimo + 6 - f.posPrimeiro).toNat % 6 + 1)).filterMap
      fun i => f.mFila[(f.posPrimeiro.toNat + i) % 6]?

/-- A record of the queue examples. -/
def processo (n : Int) : Dado :=
  ⟨"n", "a", 't', n⟩

/-- The two positions are either both -1 or both in `0..5`. -/
def posicoesValidas (pp pu : Int) : Bool :=
  (pp == -1 && pu == -1) ||
    (decide (0 ≤ pp) && decide (pp ≤ 5) && decide (0 ≤ pu) && decide (pu ≤ 5))

/-- The invariant of the queue: six cells and valid positions. -/
def Fila.bemFormada (f : Fila) : Prop :=
  f.mFila.length = 6 ∧ posicoesValidas f.posPrimeiro f.posUltimo = true

/-- The number of elements held, from the two positions alone. -/
def numElementos (pp pu : Int) : Nat :=
  if pp = -1 ∧ pu = -1 then 0 else (pu + 6 - pp).toNat % 6 + 1


/-! # Merge sort (`Multi Way Merge Sort.cpp`)

A shallow embedding of the functions `merge` and `mergeSort` of
`Estudo Autônomo/Multi Way Merge Sort.cpp`.  The array is a list of `Int`, the indices
`l`, `m`, `r` (non-negative `int`s wherever the array is accessed) are natural numbers, and
a function returns `none` when it reads or writes outside the array or declares a local
array of negative size. -/

/-- The copy loops of `merge`, `for (i = 0; i < n; i++) L[i] = arr[inicio + i];`: the `n`
cells from `inicio` on, which must all be inside the array. -/
def copiarTrecho (arr : List Int) (inicio n : Nat) : Option (List Int) :=
  if inicio + n ≤ arr.length then some ((arr.drop inicio).take n) else none

/-- The write `arr[k] = x`. -/
def escrever (arr : List Int) (k : Nat) (x : Int) : Option (List Int) :=
  if k < arr.length then some (arr.set k x) else none

/-- The three `while` loops of `merge`, run for at most `n` rounds in all.  The two list
arguments are the parts `L[i..]` and `R[j..]` of the copies still to be written, `k` is
the next cell of `arr` to write.  Each round consumes one element, so `n1 + n2` rounds
are exactly enough. -/
def mergeLaco : Nat → List Int → List Int → Nat → List Int → Option (List Int)
  | _, [], [], _, arr => some arr
  | 0, _, _, _, _ => none
  | n + 1, x :: xs, y :: ys, k, arr =>
    if x ≤ y then
      match escrever arr k x with
      | none => none
      | some arr1 => mergeLaco n xs (y :: ys) (k + 1) arr1
    else
      match escrever arr k y with
      | none => none
      | some arr1 => mergeLaco n (x :: xs) ys (k + 1) arr1
  | n + 1, x :: xs, [], k, arr =>
    match escrever arr k x with
    | none => none
    | some arr1 => mergeLaco n xs [] (k + 1) arr1
  | n + 1, [], y :: ys, k, arr =>
    match escrever arr k y with
    | none => none
    | some arr1 => mergeLaco n [] ys (k + 1) arr1

/-- The function `merge(arr, l, m, r)`; the sizes `n1 = m - l + 1` and `n2 = r - m` of the
local arrays must not be negative (`n1` is 0 for `m = l - 1`). -/
def merge (arr : List Int) (l m r : Nat) : Option (List Int) :=
  if l ≤ m + 1 ∧ m ≤ r then
    let n1 := m + 1 - l
    let n2 := r - m
    match copiarTrecho arr l n1 with
    | none => none
    | some L =>
      match copiarTrecho arr (m + 1) n2 with
      | none => none
      | some R => mergeLaco (n1 + n2) L R l arr
  else none

/-- The function `mergeSort(arr, l, r)`. -/
def mergeSort (arr : List Int) (l r : Nat) : Option (List Int) :=
  if l < r then
    let m := l + (r - l) / 2
    match mergeSort arr l m with
    | none => none
    | some arr1 =>
      match mergeSort arr1 (m + 1) r with
      | none => none
      | some arr2 => merge arr2 l m r
  else some arr
termination_by r - l
decreasing_by
  all_goals simp_wf
  all_goals omega

/-- The cells `arr[l..r]`. -/
def trecho (arr : List Int) (l r : Nat) : List Int :=
  (arr.drop l).take (r + 1 - l)

/-! ## Auxiliary lemmas -/

theorem posicao_lt (t : hashEA) (chave : String) (pos : Nat) (h : t.posicao chave = some pos) :
    pos < t.capacidade := by
  unfold hashEA.posicao at h
  split at h
  · simp at h
  · simp only [Option.some.injEq] at h
    subst h
    exact Nat.mod_lt _ (by omega)

theorem posicao_isSome (t : hashEA) (chave : String) (hcap : 1 ≤ t.capacidade) :
    t.posicao chave = some (acumularPosicao chave % t.capacidade) := by
  unfold hashEA.posicao
  rw [if_neg (by omega)]

theorem buscarChaveLaco_termina (t : hashEA) (chave : String) (posFinal : Nat)
    (hlen : t.vetDados.length = t.capacidade) (hfin : posFinal < t.capacidade) :
    ∀ n i, i < t.capacidade → t.capacidade ≤ i + n →
      ∃ r, t.buscarChaveLaco chave posFinal n ((posFinal + i) % t.capacidade) = some r := by
  intro n
  induction n with
  | zero => intro i hi hn; omega
  | succ n ih =>
    intro i hi hn
    have hpos : (posFinal + i) % t.capacidade < t.vetDados.length := by
      rw [hlen]; exact Nat.mod_lt _ (by omega)
    unfold hashEA.buscarChaveLaco
    rw [List.getElem?_eq_getElem hpos]
    simp only
    split
    · exact ⟨_, rfl⟩
    · split
      · exact ⟨_, rfl⟩
      · split
        · rename_i hne
          have hstep : ((posFinal + i) % t.capacidade + 1) % t.capacidade
              = (posFinal + (i + 1)) % t.capacidade := by
            rw [Nat.mod_add_mod, Nat.add_assoc]
          rw [hstep] at hne ⊢
          have hi1 : i + 1 < t.capacidade := by
            by_contra hge
            have heq : i + 1 = t.capacidade := by omega
            apply hne
            rw [heq, Nat.add_mod_right, Nat.mod_eq_of_lt hfin]
          exact ih (i + 1) hi1 (by omega)
        · exact ⟨_, rfl⟩

theorem buscarChave_termina (t : hashEA) (chave : String) (hcap : 1 ≤ t.capacidade)
    (hlen : t.vetDados.length = t.capacidade) : ∃ r, t.buscarChave chave = some r := by
  unfold hashEA.buscarChave
  rw [posicao_isSome t chave hcap]
  have hfin : acumularPosicao chave % t.capacidade < t.capacidade := Nat.mod_lt _ (by omega)
  have := buscarChaveLaco_termina t chave _ hlen hfin t.capacidade 0 (by omega) (by omega)
  simpa [Nat.mod_eq_of_lt hfin] using this

theorem buscarChaveLaco_achado (t : hashEA) (chave : String) (posFinal : Nat) :
    ∀ n pos p, t.buscarChaveLaco chave posFinal n pos = some (some p) →
      ∃ d, t.vetDados[p]? = some d ∧ opIgual d INVALIDO = false ∧ d.nomeInteressado = chave := by
  intro n
  induction n with
  | zero => intro pos p h; simp [hashEA.buscarChaveLaco] at h
  | succ n ih =>
    intro pos p h
    unfold hashEA.buscarChaveLaco at h
    split at h
    · simp at h
    · rename_i d hd
      split at h
      · simp [POSINVALIDA] at h
      · rename_i hinv
        split at h
        · rename_i hk
          simp only [Option.some.injEq] at h
          subst h
          exact ⟨d, hd, by simpa using hinv, hk⟩
        · split at h
          · exact ih _ _ h
          · simp [POSINVALIDA] at h

theorem buscarChave_achado (t : hashEA) (chave : String) (p : Nat)
    (h : t.buscarChave chave = some (some p)) :
    ∃ d, t.vetDados[p]? = some d ∧ opIgual d INVALIDO = false ∧ d.nomeInteressado = chave := by
  unfold hashEA.buscarChave at h
  split at h
  · simp at h
  · exact buscarChaveLaco_achado t chave _ _ _ _ h

/-- The scenario of the specification with capacity 6: `"alice"` and `"bob"` are inserted
(size 2, both found), `"alice"` is removed (size 1, not found any more) and inserted
again with the value 3 in the slot of the tombstone (size 2, found with 3). -/
theorem cenario_alice_bob :
    (hashEA.criar 6).executarTodas [.inserir "s" "alice" 'a' 1, .inserir "s" "bob" 'b' 2]
      = some tabelaAliceBob ∧
    tabelaAliceBob.consultar "alice" = some (.ok 1, tabelaAliceBob) ∧
    tabelaAliceBob.consultar "bob" = some (.ok 2, tabelaAliceBob) ∧
    tabelaAliceBob.remover "alice" = some (.ok (), tabelaBob) ∧
    tabelaBob.consultar "alice" = some (.error .naoEncontradaConsulta, tabelaBob) ∧
    tabelaBob.inserir "s" "alice" 'a' 3 = some (.ok (), tabelaAliceTresBob) ∧
    tabelaAliceTresBob.consultar "alice" = some (.ok 3, tabelaAliceTresBob) ∧
    (tabelaAliceBob.tamanho, tabelaBob.tamanho, tabelaAliceTresBob.tamanho) = (2, 1, 2) :=
  ⟨by rfl, by rfl, by rfl, by rfl, by rfl, by rfl, by rfl, rfl⟩

theorem foldl_passoPosicao_mod (bs : List Nat) :
    ∀ a b : Nat, a = b % 2 ^ 32 →
      bs.foldl passoPosicao a
        = bs.foldl (fun p c => UMPRIMO * p + charParaUnsigned c) b % 2 ^ 32 := by
  induction bs with
  | nil => intro a b h; simpa using h
  | cons c cs ih =>
    intro a b h
    simp only [List.foldl_cons]
    apply ih
    subst h
    simp only [passoPosicao, UMPRIMO]
    norm_num
    omega

theorem acumularPosicao_eq (chave : String) :
    acumularPosicao chave = polinomioDaChave chave % 2 ^ 32 := by
  unfold acumularPosicao polinomioDaChave
  have key : ∀ (cs : List Char) (a b : Nat), a = b % 2 ^ 32 →
      cs.foldl (fun pos c => (bytesDoCaractere c).foldl passoPosicao pos) a
        = cs.foldl (fun pos c => (bytesDoCaractere c).foldl
            (fun p b => UMPRIMO * p + charParaUnsigned b) pos) b % 2 ^ 32 := by
    intro cs
    induction cs with
    | nil => intro a b h; simpa using h
    | cons c cs ih =>
      intro a b h
      simp only [List.foldl_cons]
      exact ih _ _ (foldl_passoPosicao_mod _ a b h)
  exact key _ 1 1 (by norm_num)

/-- The scenario of the specification with capacity 2: the second insert (2 > 0.7 × 2)
doubles the capacity and both keys are found afterwards. -/
theorem cenario_capacidade_dois :
    (hashEA.criar 2).executarTodas [.inserir "s" "a" 'x' 1, .inserir "s" "b" 'x' 2]
      = some tabelaABQuatro ∧
    tabelaABQuatro.capacidade = 4 ∧
    tabelaABQuatro.consultar "a" = some (.ok 1, tabelaABQuatro) ∧
    tabelaABQuatro.consultar "b" = some (.ok 2, tabelaABQuatro) :=
  ⟨by rfl, rfl, by rfl, by rfl⟩

/-- The product `90 * 0.7` is rounded to the binary64 number just below 63, so the test
`tamanho > capacidade * 0.7` holds for `tamanho = 63`, `capacidade = 90`, although 63 does
not exceed seven tenths of 90; with `capacidade = 10` and `tamanho = 7` it does not hold. -/
theorem limite_em_binario :
    acimaDoLimite 63 90 = true ∧ ¬ 7 * 90 < 10 * 63 ∧ acimaDoLimite 7 10 = false :=
  ⟨by decide, by decide, by decide⟩

set_option maxRecDepth 100000 in
/-- On `hashEA(90)`, 62 inserts of distinct keys leave the capacity at 90 and the 63rd
doubles it. -/
theorem noventa_dobra_com_sessenta_e_tres :
    ((hashEA.criar 90).executarTodas (insercoesDistintas 62)).map
        (fun t => (t.capacidade, t.tamanho)) = some (90, 62) ∧
    ((hashEA.criar 90).executarTodas (insercoesDistintas 63)).map
        (fun t => (t.capacidade, t.tamanho)) = some (180, 63) :=
  ⟨by decide, by decide⟩
theorem lacoPosicaoLivre_primeiro (vet : List dado) (cap : Nat) :
    ∀ n pos p, lacoPosicaoLivre vet cap n (pos % cap) = some p →
      ∃ j, j < n ∧ p = (pos + j) % cap ∧
        (∃ d, vet[p]? = some d ∧ ocupado d = false) ∧
        ∀ i, i < j → ∃ d, vet[(pos + i) % cap]? = some d ∧ ocupado d = true := by
  intro n
  induction n with
  | zero => intro pos p h; simp [lacoPosicaoLivre] at h
  | succ n ih =>
    intro pos p h
    unfold lacoPosicaoLivre at h
    split at h
    · simp at h
    · rename_i d hd
      split at h
      · rename_i hoc
        rw [Nat.mod_add_mod] at h
        obtain ⟨j, hj, hp, hlivre, hantes⟩ := ih (pos + 1) p h
        refine ⟨j + 1, by omega, by rw [hp]; congr 1; omega, hlivre, ?_⟩
        intro i hi
        cases i with
        | zero => exact ⟨d, by simpa using hd, hoc⟩
        | succ i =>
          have := hantes i (by omega)
          have e : pos + 1 + i = pos + (i + 1) := by omega
          rwa [e] at this
      · rename_i hoc
        simp only [Option.some.injEq] at h
        subst h
        exact ⟨0, by omega, by simp, ⟨d, hd, by simpa [ocupado] using hoc⟩, by intro i hi; omega⟩

theorem lacoPosicaoLivre_semVaga :
    ∀ n pos, pos < 6 → lacoPosicaoLivre tabelaSemVaga.vetDados 6 n pos = none := by
  intro n
  induction n with
  | zero => intro pos _; rfl
  | succ n ih =>
    intro pos hpos
    interval_cases pos
    · exact ih 1 (by omega)
    · exact ih 2 (by omega)
    · exact ih 3 (by omega)
    · exact ih 4 (by omega)
    · exact ih 5 (by omega)
    · exact ih 0 (by omega)

theorem numBits_le (n : Nat) : ∀ k x, x < 2 ^ k → numBits n x ≤ k := by
  induction n with
  | zero => intro k x _; simp [numBits]
  | succ n ih =>
    intro k x hx
    unfold numBits
    split
    · omega
    · rename_i hx0
      cases k with
      | zero => simp at hx; omega
      | succ k =>
        have : x / 2 < 2 ^ k := by
          rw [Nat.div_lt_iff_lt_mul (by omega)]
          rw [Nat.pow_succ] at hx
          exact hx
        have := ih k (x / 2) this
        omega

theorem arredondar53_le (x : Nat) (hx : x < 2 ^ 85) : arredondar53 x ≤ x + 2 ^ 32 := by
  have hb := numBits_le 128 85 x hx
  unfold arredondar53
  simp only
  split
  · omega
  · have hd : numBits 128 x - 53 ≤ 32 := by omega
    have hp : 2 ^ (numBits 128 x - 53) ≤ 2 ^ 32 := Nat.pow_le_pow_right (by omega) hd
    have hq := Nat.div_mul_le_self x (2 ^ (numBits 128 x - 53))
    split
    · rw [Nat.add_mul, Nat.one_mul]
      omega
    · omega

theorem limite_implica_fator (s cap : Nat) (hcap : cap < 2 ^ 32)
    (h : acimaDoLimite s cap = false) : 10 * s ≤ 7 * cap := by
  have hx : cap * MANTISSA07 < 2 ^ 85 := by
    unfold MANTISSA07
    norm_num at hcap ⊢
    omega
  have hle := arredondar53_le _ hx
  simp only [acimaDoLimite, decide_eq_false_iff_not, Nat.not_lt] at h
  unfold MANTISSA07 at hle h
  norm_num at hle h
  omega

theorem redimensionarLaco_tamanho (t : hashEA) :
    ∀ (l vs : List dado) (n : Nat) (vs' : List dado) (n' : Nat),
      t.redimensionarLaco l vs n = some (vs', n') → n' ≤ n + l.length := by
  intro l
  induction l with
  | nil =>
    intro vs n vs' n' h
    simp only [hashEA.redimensionarLaco, Option.some.injEq, Prod.mk.injEq] at h
    simp [h.2]
  | cons d resto ih =>
    intro vs n vs' n' h
    unfold hashEA.redimensionarLaco at h
    split at h
    · split at h
      · simp at h
      · split at h
        · simp at h
        · have := ih _ _ _ _ h
          simp only [List.length_cons]
          omega
    · have := ih _ _ _ _ h
      simp only [List.length_cons]
      omega

theorem redimensionarCapacidade_campos (t t2 : hashEA)
    (h : t.redimensionarCapacidade = some t2) :
    t2.capacidade = t.capacidade * 2 ∧ t2.tamanho ≤ t.capacidade := by
  unfold hashEA.redimensionarCapacidade at h
  dsimp only at h
  split at h
  · split at h
    · simp at h
    · rename_i vs n hl
      simp only [Option.some.injEq] at h
      subst h
      have := redimensionarLaco_tamanho _ _ _ _ _ _ hl
      simp only [List.length_take] at this
      exact ⟨rfl, by simp only; omega⟩
  · simp at h

/-- What a call of `inserir` that returns can have done to the table. -/
theorem inserir_casos (t t' : hashEA) (assunto interessado : String) (tipo : Char) (valor : Int)
    (r : Except Excecao Unit) (h : t.inserir assunto interessado tipo valor = some (r, t')) :
    t' = t ∨
    (∃ p, acimaDoLimite (t.tamanho + 1) t.capacidade = false ∧
      t' = { t with
              vetDados := t.vetDados.set p ⟨assunto, interessado, tipo, valor⟩
              tamanho := t.tamanho + 1 }) ∨
    (∃ p, acimaDoLimite (t.tamanho + 1) t.capacidade = true ∧
      hashEA.redimensionarCapacidade
        { t with
          vetDados := t.vetDados.set p ⟨assunto, interessado, tipo, valor⟩
          tamanho := t.tamanho + 1 } = some t') := by
  unfold hashEA.inserir at h
  split at h
  · simp only [Option.some.injEq, Prod.mk.injEq] at h
    exact Or.inl h.2.symm
  split at h
  · simp only [Option.some.injEq, Prod.mk.injEq] at h
    exact Or.inl h.2.symm
  split at h
  · simp at h
  · simp only [Option.some.injEq, Prod.mk.injEq] at h
    exact Or.inl h.2.symm
  split at h
  · simp at h
  split at h
  · simp at h
  rename_i p hp
  dsimp only at h
  by_cases hl : acimaDoLimite (t.tamanho + 1) t.capacidade = true
  · rw [if_pos hl] at h
    split at h
    · simp at h
    · rename_i t2 ht2
      simp only [Option.some.injEq, Prod.mk.injEq] at h
      rw [← h.2]
      exact Or.inr (Or.inr ⟨p, hl, ht2⟩)
  · rw [if_neg hl] at h
    simp only [Option.some.injEq, Prod.mk.injEq] at h
    exact Or.inr (Or.inl ⟨p, by simpa using hl, h.2.symm⟩)

/-- What a call of `remover` that returns can have done to the table. -/
theorem remover_casos (t t' : hashEA) (chave : String) (r : Except Excecao Unit)
    (h : t.remover chave = some (r, t')) :
    t' = t ∨ ∃ p, t' = { t with vetDados := t.vetDados.set p REMOVIDO, tamanho := t.tamanho - 1 } := by
  unfold hashEA.remover at h
  split at h
  · simp only [Option.some.injEq, Prod.mk.injEq] at h
    exact Or.inl h.2.symm
  split at h
  · simp at h
  · simp only [Option.some.injEq, Prod.mk.injEq] at h
    exact Or.inl h.2.symm
  · rename_i p hp
    simp only [Option.some.injEq, Prod.mk.injEq] at h
    exact Or.inr ⟨p, h.2.symm⟩

theorem consultar_tabela (t t' : hashEA) (chave : String) (r : Except Excecao Int)
    (h : t.consultar chave = some (r, t')) : t' = t := by
  unfold hashEA.consultar at h
  split at h
  · simp at h
  · simp only [Option.some.injEq, Prod.mk.injEq] at h
    exact h.2.symm
  · split at h
    · simp at h
    · simp only [Option.some.injEq, Prod.mk.injEq] at h
      exact h.2.symm

/-- One call keeps `10 * tamanho ≤ 7 * capacidade` and never lowers `capacidade`. -/
theorem chamar_fator (t t' : hashEA) (op : Operacao) (r : Except Excecao (Option Int))
    (h : t.chamar op = some (r, t')) :
    t.capacidade ≤ t'.capacidade ∧
    (t'.capacidade < 2 ^ 32 → 10 * t.tamanho ≤ 7 * t.capacidade →
      10 * t'.tamanho ≤ 7 * t'.capacidade) := by
  cases op with
  | inserir assunto interessado tipo valor =>
    simp only [hashEA.chamar, Option.map_eq_some', Prod.mk.injEq] at h
    obtain ⟨⟨r1, t1⟩, hins, -, rfl⟩ := h
    dsimp only
    rcases inserir_casos _ _ _ _ _ _ _ hins with rfl | ⟨p, hl, rfl⟩ | ⟨p, hl, hred⟩
    · exact ⟨Nat.le_refl _, fun _ h => h⟩
    · refine ⟨Nat.le_refl _, fun h32 _ => ?_⟩
      exact limite_implica_fator _ _ h32 hl
    · obtain ⟨hc, ht⟩ := redimensionarCapacidade_campos _ _ hred
      simp only at hc ht
      exact ⟨by omega, fun _ _ => by omega⟩
  | remover chave =>
    simp only [hashEA.chamar, Option.map_eq_some', Prod.mk.injEq] at h
    obtain ⟨⟨r1, t1⟩, hrem, -, rfl⟩ := h
    dsimp only
    rcases remover_casos _ _ _ _ hrem with rfl | ⟨p, rfl⟩
    · exact ⟨Nat.le_refl _, fun _ h => h⟩
    · exact ⟨Nat.le_refl _, fun _ h => by simp only; omega⟩
  | consultar chave =>
    simp only [hashEA.chamar, Option.map_eq_some', Prod.mk.injEq] at h
    obtain ⟨⟨r1, t1⟩, hcon, -, rfl⟩ := h
    dsimp only
    rw [consultar_tabela _ _ _ _ hcon]
    exact ⟨Nat.le_refl _, fun _ h => h⟩

theorem executarTodas_capacidade (ops : List Operacao) :
    ∀ t t' : hashEA, t.executarTodas ops = some t' → t.capacidade ≤ t'.capacidade := by
  induction ops with
  | nil =>
    intro t t' h
    simp only [hashEA.executarTodas, Option.some.injEq] at h
    rw [h]
  | cons op ops ih =>
    intro t t' h
    unfold hashEA.executarTodas at h
    split at h
    · simp at h
    · rename_i r hr
      have h1 := (chamar_fator t r.2 op r.1 hr).1
      have h2 := ih _ _ h
      omega

theorem executarTodas_fator (ops : List Operacao) :
    ∀ t t' : hashEA, t.executarTodas ops = some t' → t'.capacidade < 2 ^ 32 →
      10 * t.tamanho ≤ 7 * t.capacidade → 10 * t'.tamanho ≤ 7 * t'.capacidade := by
  induction ops with
  | nil =>
    intro t t' h _ hinv
    simp only [hashEA.executarTodas, Option.some.injEq] at h
    rw [← h]
    exact hinv
  | cons op ops ih =>
    intro t t' h h32 hinv
    unfold hashEA.executarTodas at h
    split at h
    · simp at h
    · rename_i r hr
      have hmono := executarTodas_capacidade ops _ _ h
      have h1 := (chamar_fator t r.2 op r.1 hr).2 (by omega) hinv
      exact ih _ _ h h32 h1

theorem executarTodas_capacidade_zero (ops : List Operacao) :
    ∀ t, (hashEA.criar 0).executarTodas ops = some t → t = hashEA.criar 0 := by
  induction ops with
  | nil =>
    intro t h
    simp only [hashEA.executarTodas, Option.some.injEq] at h
    exact h.symm
  | cons op ops ih =>
    intro t h
    unfold hashEA.executarTodas at h
    split at h
    · simp at h
    · rename_i r hr
      have hr2 : r.2 = hashEA.criar 0 := by
        cases op with
        | inserir assunto interessado tipo valor =>
          simp only [hashEA.chamar, Option.map_eq_some'] at hr
          obtain ⟨⟨r1, t1⟩, hins, rfl⟩ := hr
          dsimp only
          unfold hashEA.inserir at hins
          split at hins
          · simp only [Option.some.injEq, Prod.mk.injEq] at hins
            exact hins.2.symm
          · simp only [hashEA.criar, if_true, Option.some.injEq, Prod.mk.injEq] at hins
            exact hins.2.symm
        | remover chave =>
          simp only [hashEA.chamar, Option.map_eq_some'] at hr
          obtain ⟨⟨r1, t1⟩, hrem, rfl⟩ := hr
          dsimp only
          simp only [hashEA.remover, hashEA.criar, if_true, Option.some.injEq,
            Prod.mk.injEq] at hrem
          exact hrem.2.symm
        | consultar chave =>
          simp [hashEA.chamar, hashEA.consultar, hashEA.buscarChave, hashEA.posicao,
            hashEA.criar] at hr
      rw [hr2] at h
      exact ih t h

theorem posicoesValidas_iff (pp pu : Int) :
    posicoesValidas pp pu = true ↔
      (pp = -1 ∧ pu = -1) ∨ (0 ≤ pp ∧ pp ≤ 5 ∧ 0 ≤ pu ∧ pu ≤ 5) := by
  simp [posicoesValidas, and_assoc]

theorem Fila.bemFormada_criar (memoria : Nat → Dado) : (Fila.criar memoria).bemFormada :=
  ⟨by simp [Fila.criar, CAPACIDADE_FILA], rfl⟩

theorem Fila.lista_de_seis (m : List Dado) (h : m.length = 6) :
    ∃ a0 a1 a2 a3 a4 a5, m = [a0, a1, a2, a3, a4, a5] := by
  match m, h with
  | [a0, a1, a2, a3, a4, a5], _ => exact ⟨a0, a1, a2, a3, a4, a5, rfl⟩

theorem Fila.chamar_passo (f : Fila) (h : f.bemFormada) (op : OperacaoFila) :
    ∃ f', f.chamar op = some ((listaFIFO f.conteudo op).1, f') ∧ f'.bemFormada ∧
      f'.conteudo = (listaFIFO f.conteudo op).2 := by
  obtain ⟨m, pp, pu⟩ := f
  obtain ⟨hlen, hpos⟩ := h
  simp only at hlen hpos
  obtain ⟨a0, a1, a2, a3, a4, a5, rfl⟩ := Fila.lista_de_seis m hlen
  rw [posicoesValidas_iff] at hpos
  rcases hpos with ⟨rfl, rfl⟩ | ⟨h1, h2, h3, h4⟩
  · cases op <;>
      dsimp only [Fila.chamar, Fila.Enfileirar, Fila.Desenfileirar, Fila.LimparTudo, Fila.Cheia,
        Fila.ler, Fila.conteudo, Fila.Vazia, Fila.bemFormada] <;>
      refine ⟨_, by rfl, ⟨by rfl, by rfl⟩, ?_⟩ <;>
      dsimp only [Fila.conteudo, Fila.Vazia] <;>
      rfl
  · interval_cases pp <;> interval_cases pu <;> cases op <;>
      dsimp only [Fila.chamar, Fila.Enfileirar, Fila.Desenfileirar, Fila.LimparTudo, Fila.Cheia,
        Fila.ler, Fila.conteudo, Fila.Vazia, Fila.bemFormada] <;>
      refine ⟨_, by rfl, ⟨by rfl, by rfl⟩, ?_⟩ <;>
      dsimp only [Fila.conteudo, Fila.Vazia] <;>
      rfl

theorem Fila.estado_bemFormada (f : Fila) (h : f.bemFormada) :
    f.conteudo.length ≤ 6 ∧
    (f.Cheia = true ↔ f.conteudo.length = 6) ∧
    (f.Vazia = true ↔ f.conteudo.length = 0) ∧
    (∀ k, Fila.LimparTudoLaco (k + 7) f = some ⟨f.mFila, -1, -1⟩) := by
  obtain ⟨m, pp, pu⟩ := f
  obtain ⟨hlen, hpos⟩ := h
  simp only at hlen hpos
  obtain ⟨a0, a1, a2, a3, a4, a5, rfl⟩ := Fila.lista_de_seis m hlen
  rw [posicoesValidas_iff] at hpos
  have hnum : (Fila.mk [a0, a1, a2, a3, a4, a5] pp pu).conteudo.length = numElementos pp pu := by
    rcases hpos with ⟨rfl, rfl⟩ | ⟨h1, h2, h3, h4⟩
    · rfl
    · interval_cases pp <;> interval_cases pu <;>
        simp [Fila.conteudo, Fila.Vazia, numElementos, FILAVAZIA, List.range, List.range.loop]
  have hlimpar : ∀ k, Fila.LimparTudoLaco (k + 7) (Fila.mk [a0, a1, a2, a3, a4, a5] pp pu)
      = some ⟨[a0, a1, a2, a3, a4, a5], -1, -1⟩ := by
    rcases hpos with ⟨rfl, rfl⟩ | ⟨h1, h2, h3, h4⟩
    · intro k; rfl
    · interval_cases pp <;> interval_cases pu <;> intro k <;> rfl
  rw [hnum]
  refine ⟨?_, ?_, ?_, hlimpar⟩
  · rcases hpos with ⟨rfl, rfl⟩ | ⟨h1, h2, h3, h4⟩
    · decide
    · interval_cases pp <;> interval_cases pu <;> decide
  · dsimp only [Fila.Cheia]
    rcases hpos with ⟨rfl, rfl⟩ | ⟨h1, h2, h3, h4⟩
    · decide
    · interval_cases pp <;> interval_cases pu <;> decide
  · dsimp only [Fila.Vazia]
    rcases hpos with ⟨rfl, rfl⟩ | ⟨h1, h2, h3, h4⟩
    · decide
    · interval_cases pp <;> interval_cases pu <;> decide

theorem listaFIFO_length (l : List Dado) (h : l.length ≤ 6) (op : OperacaoFila) :
    (listaFIFO l op).2.length ≤ 6 := by
  cases op with
  | Enfileirar d =>
    simp only [listaFIFO]
    split
    · exact h
    · simp only [List.length_append, List.length_singleton]
      omega
  | Desenfileirar =>
    cases l with
    | nil => simp [listaFIFO]
    | cons d resto =>
      simp only [listaFIFO]
      simp only [List.length_cons] at h
      omega
  | LimparTudo => simp [listaFIFO]

theorem Fila.executarTodas_refina (ops : List OperacaoFila) :
    ∀ f : Fila, f.bemFormada → f.conteudo.length ≤ 6 →
      ∃ f', f.executarTodas ops = some ((listaFIFOTodas f.conteudo ops).1, f') ∧
        f'.bemFormada ∧ f'.conteudo = (listaFIFOTodas f.conteudo ops).2 ∧
        f'.conteudo.length ≤ 6 := by
  induction ops with
  | nil => intro f h hl; exact ⟨f, rfl, h, rfl, hl⟩
  | cons op ops ih =>
    intro f h hl
    obtain ⟨f1, h1, hbem1, hcont1⟩ := Fila.chamar_passo f h op
    have hl1 : f1.conteudo.length ≤ 6 := by
      rw [hcont1]
      exact listaFIFO_length _ hl op
    obtain ⟨f2, h2, hbem2, hcont2, hl2⟩ := ih f1 hbem1 hl1
    refine ⟨f2, ?_, hbem2, ?_, hl2⟩
    · unfold Fila.executarTodas
      rw [h1]
      simp only
      rw [h2]
      simp only [listaFIFOTodas, hcont1]
    · rw [hcont2, hcont1]
      simp only [listaFIFOTodas]

theorem Fila.conteudo_criar (memoria : Nat → Dado) : (Fila.criar memoria).conteudo = [] := by
  rfl

theorem escrever_meio (pre : List Int) (c v : Int) (resto : List Int) :
    escrever (pre ++ c :: resto) pre.length v = some ((pre ++ [v]) ++ resto) := by
  unfold escrever
  rw [if_pos (by simp)]
  simp [List.set_append_right]

theorem mergeLaco_spec :
    ∀ (n : Nat) (L R pre resto post : List Int), L.length + R.length ≤ n →
      resto.length = L.length + R.length →
      mergeLaco n L R pre.length (pre ++ resto ++ post)
        = some (pre ++ L.merge R (fun a b => decide (a ≤ b)) ++ post) := by
  intro n
  induction n with
  | zero =>
    intro L R pre resto post hn hr
    have hL : L = [] := List.length_eq_zero.mp (by omega)
    have hR : R = [] := List.length_eq_zero.mp (by omega)
    subst hL hR
    have : resto = [] := List.length_eq_zero.mp (by simpa using hr)
    subst this
    simp [mergeLaco]
  | succ n ih =>
    intro L R pre resto post hn hr
    cases L with
    | nil =>
      cases R with
      | nil =>
        have : resto = [] := List.length_eq_zero.mp (by simpa using hr)
        subst this
        simp [mergeLaco]
      | cons y ys =>
        cases resto with
        | nil => simp at hr
        | cons c resto =>
          simp only [mergeLaco, List.append_assoc, List.cons_append]
          rw [escrever_meio]
          simp only [List.length_cons, List.length_nil] at hn hr
          have := ih [] ys (pre ++ [y]) resto post (by simp; omega) (by simp; omega)
          simp only [List.length_append, List.length_singleton, List.append_assoc,
            List.nil_merge, List.singleton_append] at this ⊢
          exact this
    | cons x xs =>
      cases R with
      | nil =>
        cases resto with
        | nil => simp at hr
        | cons c resto =>
          simp only [mergeLaco, List.append_assoc, List.cons_append]
          rw [escrever_meio]
          simp only [List.length_cons, List.length_nil] at hn hr
          have := ih xs [] (pre ++ [x]) resto post (by simp; omega) (by simp; omega)
          simp only [List.length_append, List.length_singleton, List.append_assoc,
            List.merge_right, List.singleton_append] at this ⊢
          exact this
      | cons y ys =>
        cases resto with
        | nil => simp at hr; omega
        | cons c resto =>
          simp only [List.length_cons] at hn hr
          simp only [mergeLaco, List.append_assoc, List.cons_append]
          rw [List.cons_merge_cons]
          by_cases hxy : x ≤ y
          · rw [if_pos hxy, escrever_meio]
            have := ih xs (y :: ys) (pre ++ [x]) resto post (by simp; omega) (by simp; omega)
            simp only [List.length_append, List.length_singleton, List.append_assoc,
              List.singleton_append] at this ⊢
            simp only [hxy, decide_True, if_true, List.cons_append]
            exact this
          · rw [if_neg hxy, escrever_meio]
            have := ih (x :: xs) ys (pre ++ [y]) resto post (by simp; omega) (by simp; omega)
            simp only [List.length_append, List.length_singleton, List.append_assoc,
              List.singleton_append] at this ⊢
            simp only [hxy, decide_False, Bool.false_eq_true, if_false, List.cons_append]
            exact this

theorem copiarTrecho_meio (pre mid post : List Int) :
    copiarTrecho (pre ++ mid ++ post) pre.length mid.length = some mid := by
  unfold copiarTrecho
  rw [if_pos (by simp)]
  simp [List.append_assoc]

theorem merge_spec (pre L R post : List Int) (l m r : Nat) (hl : pre.length = l)
    (hL : L.length = m - l + 1) (hR : R.length = r - m) (hlm : l ≤ m) (hmr : m ≤ r) :
    merge (pre ++ L ++ R ++ post) l m r
      = some (pre ++ L.merge R (fun a b => decide (a ≤ b)) ++ post) := by
  unfold merge
  rw [if_pos ⟨by omega, hmr⟩]
  dsimp only
  have hn1 : m + 1 - l = m - l + 1 := by omega
  rw [hn1]
  have h1 : copiarTrecho (pre ++ L ++ R ++ post) l (m - l + 1) = some L := by
    have := copiarTrecho_meio pre L (R ++ post)
    rw [hl, hL] at this
    simpa [List.append_assoc] using this
  have h2 : copiarTrecho (pre ++ L ++ R ++ post) (m + 1) (r - m) = some R := by
    have := copiarTrecho_meio (pre ++ L) R post
    rw [hR] at this
    have hlen : (pre ++ L).length = m + 1 := by
      simp only [List.length_append, hl, hL]
      omega
    rw [hlen] at this
    exact this
  rw [h1, h2]
  dsimp only
  have := mergeLaco_spec (m - l + 1 + (r - m)) L R pre (L ++ R) post (by omega) (by simp)
  rw [hl] at this
  simpa [List.append_assoc] using this

theorem mergeSort_sem_trabalho (arr : List Int) (l r : Nat) (h : r ≤ l) :
    mergeSort arr l r = some arr := by
  rw [mergeSort]
  rw [if_neg (by omega)]

theorem mergeSort_spec :
    ∀ (d l r : Nat) (pre mid post : List Int), r - l = d → l ≤ r → pre.length = l →
      mid.length = r + 1 - l →
      ∃ mid', mergeSort (pre ++ mid ++ post) l r = some (pre ++ mid' ++ post) ∧
        mid'.Sorted (· ≤ ·) ∧ mid'.Perm mid := by
  intro d
  induction d using Nat.strong_induction_on with
  | _ d ih =>
    intro l r pre mid post hd hlr hpre hmid
    by_cases hlt : l < r
    · rw [mergeSort, if_pos hlt]
      dsimp only
      have hm1 : l ≤ l + (r - l) / 2 := by omega
      have hm2 : l + (r - l) / 2 < r := by omega
      generalize hm : l + (r - l) / 2 = m at hm1 hm2
      -- split the middle part
      have hsplit : mid = mid.take (m + 1 - l) ++ mid.drop (m + 1 - l) :=
        (List.take_append_drop _ _).symm
      have hlen1 : (mid.take (m + 1 - l)).length = m + 1 - l := by
        rw [List.length_take]; omega
      have hlen2 : (mid.drop (m + 1 - l)).length = r + 1 - (m + 1) := by
        rw [List.length_drop]; omega
      generalize mid.take (m + 1 - l) = mid1 at hsplit hlen1
      generalize mid.drop (m + 1 - l) = mid2 at hsplit hlen2
      subst hsplit
      obtain ⟨mid1', h1, hs1, hp1⟩ :=
        ih (m - l) (by omega) l m pre mid1 (mid2 ++ post) rfl hm1 hpre hlen1
      have e1 : pre ++ (mid1 ++ mid2) ++ post = pre ++ mid1 ++ (mid2 ++ post) := by
        simp [List.append_assoc]
      rw [e1, h1]
      dsimp only
      have hlen1' : mid1'.length = m + 1 - l := by rw [hp1.length_eq, hlen1]
      obtain ⟨mid2', h2, hs2, hp2⟩ :=
        ih (r - (m + 1)) (by omega) (m + 1) r (pre ++ mid1') mid2 post rfl (by omega)
          (by simp only [List.length_append, hpre, hlen1']; omega) hlen2
      have e2 : pre ++ mid1' ++ (mid2 ++ post) = pre ++ mid1' ++ mid2 ++ post := by
        simp [List.append_assoc]
      rw [e2, h2]
      dsimp only
      rw [merge_spec pre mid1' mid2' post l m r hpre (by omega)
        (by rw [hp2.length_eq, hlen2]; omega) hm1 (by omega)]
      refine ⟨_, rfl, ?_, ?_⟩
      · exact hs1.merge hs2
      · exact (List.merge_perm_append _).trans (hp1.append hp2)
    · have hrl : r = l := by omega
      subst hrl
      rw [mergeSort_sem_trabalho _ _ _ (Nat.le_refl _)]
      refine ⟨mid, rfl, ?_, List.Perm.refl _⟩
      have h1 : mid.length = 1 := by omega
      match mid, h1 with
      | [a], _ => exact List.sorted_singleton a

theorem trecho_meio (pre mid post : List Int) (l r : Nat) (hpre : pre.length = l)
    (hmid : mid.length = r + 1 - l) (hlr : l ≤ r) :
    trecho (pre ++ mid ++ post) l r = mid ∧ (pre ++ mid ++ post).take l = pre ∧
      (pre ++ mid ++ post).drop (r + 1) = post := by
  refine ⟨?_, ?_, ?_⟩
  · unfold trecho
    rw [List.append_assoc, ← hpre, List.drop_left,
      show r + 1 - pre.length = mid.length by omega, List.take_left]
  · rw [List.append_assoc, ← hpre, List.take_left]
  · have : r + 1 = (pre ++ mid).length := by
      simp only [List.length_append, hpre, hmid]
      omega
    rw [this, List.drop_left]

theorem trecho_decompor (arr : List Int) (l r : Nat) (hlr : l ≤ r) (hr : r < arr.length) :
    arr = arr.take l ++ trecho arr l r ++ arr.drop (r + 1) ∧ (arr.take l).length = l ∧
      (trecho arr l r).length = r + 1 - l := by
  refine ⟨?_, ?_, ?_⟩
  · unfold trecho
    have h1 : arr.drop (r + 1) = (arr.drop l).drop (r + 1 - l) := by
      rw [List.drop_drop]
      congr 1
      omega
    rw [h1, List.append_assoc, List.take_append_drop, List.take_append_drop]
  · rw [List.length_take]
    omega
  · unfold trecho
    rw [List.length_take, List.length_drop]
    omega

theorem mergeSort_ordena_partes (pre mid post : List Int) (l r : Nat) (hlr : l ≤ r)
    (hpre : pre.length = l) (hmid : mid.length = r + 1 - l) :
    (∃ res, mergeSort (pre ++ mid ++ post) l r = some res ∧
      res.length = (pre ++ mid ++ post).length ∧
      (trecho res l r).Sorted (· ≤ ·) ∧
      (trecho res l r).Perm (trecho (pre ++ mid ++ post) l r) ∧
      res.take l = (pre ++ mid ++ post).take l ∧
      res.drop (r + 1) = (pre ++ mid ++ post).drop (r + 1)) ∧
    (∀ m, l ≤ m → m ≤ r → (trecho (pre ++ mid ++ post) l m).Sorted (· ≤ ·) →
      (trecho (pre ++ mid ++ post) (m + 1) r).Sorted (· ≤ ·) →
      ∃ res, merge (pre ++ mid ++ post) l m r = some res ∧
        res.length = (pre ++ mid ++ post).length ∧
        trecho res l r
          = (trecho (pre ++ mid ++ post) l m).merge (trecho (pre ++ mid ++ post) (m + 1) r)
              (fun a b => decide (a ≤ b)) ∧
        (trecho res l r).Sorted (· ≤ ·) ∧
        (trecho res l r).Perm (trecho (pre ++ mid ++ post) l r) ∧
        res.take l = (pre ++ mid ++ post).take l ∧
        res.drop (r + 1) = (pre ++ mid ++ post).drop (r + 1)) := by
  refine ⟨?_, ?_⟩
  · obtain ⟨mid', hres, hsort, hperm⟩ := mergeSort_spec (r - l) l r pre mid post rfl hlr hpre hmid
    have hmid' : mid'.length = r + 1 - l := by rw [hperm.length_eq, hmid]
    obtain ⟨t1, t2, t3⟩ := trecho_meio pre mid' post l r hpre hmid' hlr
    obtain ⟨u1, u2, u3⟩ := trecho_meio pre mid post l r hpre hmid hlr
    refine ⟨_, hres, ?_, ?_, ?_, ?_, ?_⟩
    · simp only [List.length_append, hmid', hmid]
    · rw [t1]; exact hsort
    · rw [t1, u1]; exact hperm
    · rw [t2, u2]
    · rw [t3, u3]
  · intro m hlm hmr hs1 hs2
    have hsplit : mid = mid.take (m + 1 - l) ++ mid.drop (m + 1 - l) :=
      (List.take_append_drop _ _).symm
    have hlen1 : (mid.take (m + 1 - l)).length = m + 1 - l := by
      rw [List.length_take]; omega
    have hlen2 : (mid.drop (m + 1 - l)).length = r + 1 - (m + 1) := by
      rw [List.length_drop]; omega
    generalize mid.take (m + 1 - l) = L at hsplit hlen1
    generalize mid.drop (m + 1 - l) = R at hsplit hlen2
    subst hsplit
    have hL : trecho (pre ++ (L ++ R) ++ post) l m = L := by
      have := (trecho_meio pre L (R ++ post) l m hpre hlen1 hlm).1
      simpa [List.append_assoc] using this
    have hR : trecho (pre ++ (L ++ R) ++ post) (m + 1) r = R := by
      by_cases hmr' : m + 1 ≤ r
      · have := (trecho_meio (pre ++ L) R post (m + 1) r
          (by simp only [List.length_append, hpre, hlen1]; omega) hlen2 hmr').1
        simpa [List.append_assoc] using this
      · have hR0 : R = [] := List.length_eq_zero.mp (by omega)
        subst hR0
        unfold trecho
        have : r + 1 - (m + 1) = 0 := by omega
        rw [this, List.take_zero]
    rw [hL] at hs1 ⊢
    rw [hR] at hs2 ⊢
    have hm := merge_spec pre L R post l m r hpre (by omega) (by omega) hlm hmr
    have e : pre ++ (L ++ R) ++ post = pre ++ L ++ R ++ post := by simp [List.append_assoc]
    have hperm : (L.merge R fun a b => decide (a ≤ b)).Perm (L ++ R) :=
      List.merge_perm_append _
    have hlen' : (L.merge R fun a b => decide (a ≤ b)).length = r + 1 - l := by
      rw [hperm.length_eq, hmid]
    obtain ⟨t1, t2, t3⟩ := trecho_meio pre _ post l r hpre hlen' hlr
    obtain ⟨u1, u2, u3⟩ := trecho_meio pre (L ++ R) post l r hpre hmid hlr
    refine ⟨_, by rw [e]; exact hm, ?_, t1, ?_, ?_, ?_, ?_⟩
    · simp only [List.length_append, hperm.length_eq]
    · rw [t1]; exact hs1.merge hs2
    · rw [t1, u1]; exact hperm
    · rw [t2, u2]
    · rw [t3, u3]

/-- A successful `inserir` that does not trigger a resize writes one slot: the first slot
in linear-probe order from `posicao(interessado)` on which the test
`(d != INVALIDO) && (d != REMOVIDO)` of the placement loop is false.  Every other slot and
`capacidade` are unchanged and `tamanho` is one more.  The test looks at the value alone,
so the slot written may hold a stored record whose value is -1 or -2. -/
theorem inserir_sem_redimensionar (t t' : hashEA) (assunto interessado : String) (tipo : Char)
    (valor : Int) (h : t.inserir assunto interessado tipo valor = some (.ok (), t'))
    (hlim : acimaDoLimite (t.tamanho + 1) t.capacidade = false) :
    ∃ pos0 j, t.posicao interessado = some pos0 ∧ j < t.capacidade ∧
      (∃ d, t.vetDados[(pos0 + j) % t.capacidade]? = some d ∧ ocupado d = false) ∧
      (∀ i, i < j → ∃ d, t.vetDados[(pos0 + i) % t.capacidade]? = some d ∧ ocupado d = true) ∧
      t'.vetDados[(pos0 + j) % t.capacidade]? = some ⟨assunto, interessado, tipo, valor⟩ ∧
      (∀ i, i ≠ (pos0 + j) % t.capacidade → t'.vetDados[i]? = t.vetDados[i]?) ∧
      t'.vetDados.length = t.vetDados.length ∧
      t'.capacidade = t.capacidade ∧
      t'.tamanho = t.tamanho + 1 := by
  unfold hashEA.inserir at h
  split at h
  · simp at h
  split at h
  · simp at h
  split at h
  · simp at h
  · simp at h
  split at h
  · simp at h
  rename_i pos0 hpos0
  split at h
  · simp at h
  rename_i p hp
  have hlt := posicao_lt t interessado pos0 hpos0
  rw [← Nat.mod_eq_of_lt hlt] at hp
  obtain ⟨j, hj, hpj, ⟨d, hd, hlivre⟩, hantes⟩ := lacoPosicaoLivre_primeiro _ _ _ _ _ hp
  dsimp only at h
  rw [hlim] at h
  simp only [Bool.false_eq_true, if_false, Option.some.injEq, Prod.mk.injEq, true_and] at h
  subst h
  subst hpj
  have hplt : (pos0 + j) % t.capacidade < t.vetDados.length := by
    rcases Nat.lt_or_ge ((pos0 + j) % t.capacidade) t.vetDados.length with h1 | h1
    · exact h1
    · rw [List.getElem?_eq_none h1] at hd
      simp at hd
  refine ⟨pos0, j, hpos0, hj, ⟨d, hd, hlivre⟩, hantes, ?_, ?_, ?_, rfl, rfl⟩
  · simp [List.getElem?_set, hplt]
  · intro i hi
    simp [List.getElem?_set, Ne.symm hi]
  · simp
/-! ## Properties of the member functions -/

/-- C1 fails on the code.  On `hashEA(6)` the call `inserir("s", "alice", 'x', -1)`
succeeds, and the `consultar("alice")` that follows throws "Chave não encontrada para
consulta." instead of returning -1: the record reads as `INVALIDO`. -/
theorem inserir_menos_um_nao_e_consultado :
    (hashEA.criar 6).inserir "s" "alice" 'x' (-1) = some (.ok (), tabelaAliceMenosUm) ∧
    tabelaAliceMenosUm.consultar "alice"
      = some (.error .naoEncontradaConsulta, tabelaAliceMenosUm) :=
  ⟨rfl, rfl⟩

/-- C2 fails on the code, in two ways.  After `inserir f`, `inserir a`, `remover f` on
`hashEA(6)`, the call `remover("")` succeeds (the empty key equals the key of the
`REMOVIDO` slot), and the `consultar("")` that follows returns -2 instead of throwing.
And in `tabelaGDuplicado`, built from `hashEA(6)` with non-empty keys only, the call
`remover("g")` succeeds and the `consultar("g")` that follows returns 2. -/
theorem remover_e_ainda_consultar :
    ((hashEA.criar 6).executarTodas
        [.inserir "s" "f" 'x' 1, .inserir "s" "a" 'x' 2, .remover "f"] = some tabelaLapideF ∧
      tabelaLapideF.remover "" = some (.ok (), tabelaLapideFZero) ∧
      tabelaLapideFZero.consultar "" = some (.ok (-2), tabelaLapideFZero)) ∧
    ((hashEA.criar 6).executarTodas
        [.inserir "s" "a" 'x' 1, .inserir "s" "g" 'x' 2, .remover "a",
          .inserir "s" "a" 'x' (-1), .inserir "s" "g" 'x' 7] = some tabelaGDuplicado ∧
      tabelaGDuplicado.remover "g" = some (.ok (), tabelaGRemovidoUmaVez) ∧
      tabelaGRemovidoUmaVez.consultar "g" = some (.ok 2, tabelaGRemovidoUmaVez)) :=
  ⟨⟨by rfl, by rfl, by rfl⟩, ⟨by rfl, by rfl, by rfl⟩⟩

/-- C3 fails on the code.  On `hashEA(6)`, after `"alice"` was inserted and removed, the
call `inserir("s", "alice", 'x', -1)` succeeds and takes the slot of the tombstone, and
the `consultar("alice")` that follows throws instead of returning the new value -1. -/
theorem reinserir_menos_um_nao_e_consultado :
    (hashEA.criar 6).executarTodas [.inserir "s" "alice" 'x' 1, .remover "alice"]
      = some tabelaLapideAlice ∧
    tabelaLapideAlice.inserir "s" "alice" 'x' (-1) = some (.ok (), tabelaAliceMenosUm) ∧
    tabelaAliceMenosUm.consultar "alice"
      = some (.error .naoEncontradaConsulta, tabelaAliceMenosUm) :=
  ⟨rfl, rfl, rfl⟩

/-- C4 fails on the code, in two ways.  The table `tabelaLapideFZero` is built from
`hashEA(6)` by `inserir f`, `inserir a`, `remover f`, `remover ""`; its `tamanho` is 0
while one slot is occupied (the record of `"a"`, which `consultar` still finds).  The
table `tabelaGSobreA` is built by `inserir a` with the value -2 and `inserir g`; its
`tamanho` is 2 while one slot is occupied (`"a"` is not found any more). -/
theorem tamanho_difere_dos_ocupados :
    (Alcancavel 6 tabelaLapideFZero ∧
      tabelaLapideFZero.tamanho = 0 ∧ tabelaLapideFZero.numOcupados = 1 ∧
      tabelaLapideFZero.consultar "a" = some (.ok 2, tabelaLapideFZero)) ∧
    (Alcancavel 6 tabelaGSobreA ∧
      tabelaGSobreA.tamanho = 2 ∧ tabelaGSobreA.numOcupados = 1 ∧
      tabelaGSobreA.consultar "a" = some (.error .naoEncontradaConsulta, tabelaGSobreA)) :=
  ⟨⟨⟨[.inserir "s" "f" 'x' 1, .inserir "s" "a" 'x' 2, .remover "f", .remover ""], by rfl⟩,
      rfl, by rfl, by rfl⟩,
    ⟨⟨[.inserir "s" "a" 'x' (-2), .inserir "s" "g" 'x' 5], by rfl⟩, rfl, by rfl, by rfl⟩⟩

/-- C5 fails on the code.  The table `tabelaGEscondido`, built from `hashEA(6)`, holds
`"g"` in the occupied slot 3; `inserir("s", "g", 'x', 7)` is accepted all the same and
leaves the occupied slots 2 and 3 both with the key `"g"`. -/
theorem inserir_aceita_chave_repetida :
    Alcancavel 6 tabelaGEscondido ∧
    tabelaGEscondido.vetDados[3]? = some (registro "g" 2) ∧
    ocupado (registro "g" 2) = true ∧
    tabelaGEscondido.inserir "s" "g" 'x' 7 = some (.ok (), tabelaGDuplicado) ∧
    tabelaGDuplicado.vetDados[2]? = some (registro "g" 7) ∧
    tabelaGDuplicado.vetDados[3]? = some (registro "g" 2) ∧
    ocupado (registro "g" 7) = true :=
  ⟨⟨[.inserir "s" "a" 'x' 1, .inserir "s" "g" 'x' 2, .remover "a",
      .inserir "s" "a" 'x' (-1)], by rfl⟩, rfl, rfl, rfl, rfl, rfl, rfl⟩

/-- C6 fails on the code, both ways.  In `tabelaGEscondido` the key `"g"` is held by the
occupied slot 3 and `buscarChave("g")` answers `POSINVALIDA`; in `tabelaLapideF` no
occupied slot holds the key `""` and `buscarChave("")` answers slot 1, so `consultar("")`
succeeds. -/
theorem buscarChave_erra_nos_dois_sentidos :
    (Alcancavel 6 tabelaGEscondido ∧
      tabelaGEscondido.vetDados[3]? = some (registro "g" 2) ∧
      ocupado (registro "g" 2) = true ∧
      tabelaGEscondido.buscarChave "g" = some POSINVALIDA) ∧
    (Alcancavel 6 tabelaLapideF ∧
      (∀ d ∈ tabelaLapideF.vetDados, ocupado d = true → d.nomeInteressado ≠ "") ∧
      tabelaLapideF.buscarChave "" = some (some 1) ∧
      tabelaLapideF.consultar "" = some (.ok (-2), tabelaLapideF)) :=
  ⟨⟨⟨[.inserir "s" "a" 'x' 1, .inserir "s" "g" 'x' 2, .remover "a",
        .inserir "s" "a" 'x' (-1)], by rfl⟩, rfl, rfl, rfl⟩,
    ⟨⟨[.inserir "s" "f" 'x' 1, .inserir "s" "a" 'x' 2, .remover "f"], by rfl⟩,
      by decide, rfl, rfl⟩⟩

/-- C7: a call of `inserir`, `remover` or `consultar` that ends in an exception, whatever
the exception and whatever the table, leaves the table as it was: same array, same
`capacidade`, same `tamanho`. -/
theorem excecao_deixa_tabela_igual (t t' : hashEA) (op : Operacao) (e : Excecao)
    (h : t.chamar op = some (.error e, t')) : t' = t := by
  cases op with
  | inserir assunto interessado tipo valor =>
    simp only [hashEA.chamar, Option.map_eq_some'] at h
    obtain ⟨⟨r, t1⟩, hins, hr⟩ := h
    simp only [Prod.mk.injEq] at hr
    obtain ⟨hr, rfl⟩ := hr
    cases r with
    | ok u => simp [Except.map] at hr
    | error e1 =>
      unfold hashEA.inserir at hins
      repeat' split at hins
      all_goals first
        | (simp only [Option.some.injEq, Prod.mk.injEq] at hins; exact hins.2.symm)
        | (simp at hins; done)
        | (dsimp only at hins
           split at hins
           · split at hins <;> simp at hins
           · simp at hins)
  | remover chave =>
    simp only [hashEA.chamar, Option.map_eq_some'] at h
    obtain ⟨⟨r, t1⟩, hrem, hr⟩ := h
    simp only [Prod.mk.injEq] at hr
    obtain ⟨hr, rfl⟩ := hr
    cases r with
    | ok u => simp [Except.map] at hr
    | error e1 =>
      unfold hashEA.remover at hrem
      repeat' split at hrem
      all_goals first
        | (simp only [Option.some.injEq, Prod.mk.injEq] at hrem; exact hrem.2.symm)
        | simp at hrem
  | consultar chave =>
    simp only [hashEA.chamar, Option.map_eq_some'] at h
    obtain ⟨⟨r, t1⟩, hcon, hr⟩ := h
    simp only [Prod.mk.injEq] at hr
    obtain ⟨hr, rfl⟩ := hr
    cases r with
    | ok u => simp [Except.map] at hr
    | error e1 =>
      unfold hashEA.consultar at hcon
      repeat' split at hcon
      all_goals first
        | (simp only [Option.some.injEq, Prod.mk.injEq] at hcon; exact hcon.2.symm)
        | simp at hcon

/-- Witness of C7: `inserir` with the empty key on `tabelaLapideF` throws "Chave
inválida." and the table is unchanged. -/
theorem excecao_deixa_tabela_igual_witness :
    tabelaLapideF.chamar (.inserir "s" "" 'x' 5) = some (.error .chaveInvalida, tabelaLapideF) ∧
    tabelaLapideF = tabelaLapideF :=
  ⟨by rfl, excecao_deixa_tabela_igual tabelaLapideF tabelaLapideF (.inserir "s" "" 'x' 5)
    .chaveInvalida (by rfl)⟩

/-- C8 fails on the code.  On `hashEA(1)` the call `inserir("s", "a", 'x', -2)` meets none
of the three failure conditions and succeeds, yet `tamanho` is 0 afterwards as it was
before: the rehash the call triggers drops the record, which reads as `REMOVIDO`. -/
theorem inserir_sucesso_sem_somar :
    "a" ≠ "" ∧ (hashEA.criar 1).tamanho ≠ (hashEA.criar 1).capacidade ∧
    (hashEA.criar 1).buscarChave "a" = some POSINVALIDA ∧
    (hashEA.criar 1).tamanho = 0 ∧
    (hashEA.criar 1).inserir "s" "a" 'x' (-2) = some (.ok (), tabelaDepoisDeRedimensionar) ∧
    tabelaDepoisDeRedimensionar.tamanho = 0 :=
  ⟨by decide, by decide, by rfl, rfl, by rfl, rfl⟩

/-- C9: on a table with `capacidade ≥ 1` (whose array has `capacidade` slots),
`buscarChave(chave)` has an answer and `remover(chave)` throws "Impossível remover de hash
vazia." when `tamanho` is 0; otherwise throws "Chave não encontrada para remoção." when
the answer is `POSINVALIDA`; otherwise succeeds, and then the slot `buscarChave` answered
is inside the array and holds `REMOVIDO`, every other slot and `capacidade` are unchanged
and `tamanho` is one less. -/
theorem remover_especificacao (t : hashEA) (chave : String) (hcap : 1 ≤ t.capacidade)
    (hlen : t.vetDados.length = t.capacidade) :
    ∃ r, t.buscarChave chave = some r ∧
      (t.tamanho = 0 → t.remover chave = some (.error .hashVazia, t)) ∧
      (t.tamanho ≠ 0 → r = POSINVALIDA →
        t.remover chave = some (.error .naoEncontradaRemocao, t)) ∧
      (∀ pos, t.tamanho ≠ 0 → r = some pos →
        ∃ t', t.remover chave = some (.ok (), t') ∧
          pos < t.capacidade ∧
          t'.vetDados[pos]? = some REMOVIDO ∧
          (∀ i, i ≠ pos → t'.vetDados[i]? = t.vetDados[i]?) ∧
          t'.vetDados.length = t.vetDados.length ∧
          t'.capacidade = t.capacidade ∧
          t'.tamanho + 1 = t.tamanho) := by
  obtain ⟨r, hr⟩ := buscarChave_termina t chave hcap hlen
  refine ⟨r, hr, ?_, ?_, ?_⟩
  · intro h0
    simp [hashEA.remover, h0]
  · intro h0 hinv
    subst hinv
    simp [hashEA.remover, h0, hr, POSINVALIDA]
  · intro pos h0 hpos
    subst hpos
    obtain ⟨d, hd, -, -⟩ := buscarChave_achado t chave pos hr
    have hlt : pos < t.vetDados.length := by
      rcases Nat.lt_or_ge pos t.vetDados.length with h | h
      · exact h
      · rw [List.getElem?_eq_none h] at hd
        simp at hd
    refine ⟨{ t with vetDados := t.vetDados.set pos REMOVIDO, tamanho := t.tamanho - 1 },
      by simp only [hashEA.remover, h0, hr, if_false], by omega, ?_, ?_, ?_, rfl, ?_⟩
    · simp [List.getElem?_set, hlt]
    · intro i hi
      simp [List.getElem?_set, Ne.symm hi]
    · simp
    · simp only
      omega

/-- Witness of C9: `remover("a")` on `tabelaLapideF`. -/
theorem remover_especificacao_witness :
    ∃ r, tabelaLapideF.buscarChave "a" = some r ∧
      (tabelaLapideF.tamanho = 0 →
        tabelaLapideF.remover "a" = some (.error .hashVazia, tabelaLapideF)) ∧
      (tabelaLapideF.tamanho ≠ 0 → r = POSINVALIDA →
        tabelaLapideF.remover "a" = some (.error .naoEncontradaRemocao, tabelaLapideF)) ∧
      (∀ pos, tabelaLapideF.tamanho ≠ 0 → r = some pos →
        ∃ t', tabelaLapideF.remover "a" = some (.ok (), t') ∧
          pos < tabelaLapideF.capacidade ∧
          t'.vetDados[pos]? = some REMOVIDO ∧
          (∀ i, i ≠ pos → t'.vetDados[i]? = tabelaLapideF.vetDados[i]?) ∧
          t'.vetDados.length = tabelaLapideF.vetDados.length ∧
          t'.capacidade = tabelaLapideF.capacidade ∧
          t'.tamanho + 1 = tabelaLapideF.tamanho) :=
  remover_especificacao tabelaLapideF "a" (by decide) (by decide)

/-- C10 fails on the code.  Inside `inserir("s", "a", 'x', -2)` on `hashEA(1)`,
`redimensionarCapacidade` is entered with `tamanho` 1 and leaves `tamanho` 0: the record
just stored reads as `REMOVIDO` and is not carried over to the new array. -/
theorem redimensionar_muda_tamanho :
    tabelaAntesDeRedimensionar
      = { hashEA.criar 1 with
          vetDados := (hashEA.criar 1).vetDados.set 0 (registro "a" (-2))
          tamanho := (hashEA.criar 1).tamanho + 1 } ∧
    acimaDoLimite tabelaAntesDeRedimensionar.tamanho tabelaAntesDeRedimensionar.capacidade
      = true ∧
    tabelaAntesDeRedimensionar.tamanho = 1 ∧
    tabelaAntesDeRedimensionar.redimensionarCapacidade = some tabelaDepoisDeRedimensionar ∧
    tabelaDepoisDeRedimensionar.tamanho = 0 ∧
    tabelaDepoisDeRedimensionar.vetDados = [INVALIDO, INVALIDO] :=
  ⟨by rfl, by rfl, rfl, by rfl, rfl, rfl⟩

/-- C11 fails on the code.  On `hashEA(1)` the call `inserir("s", "a", 'x', -2)` succeeds
and doubles the capacity from 1 to 2, and the `consultar("a")` that follows throws "Chave
não encontrada para consulta.": the record just inserted reads as `REMOVIDO` and the
rehash does not carry it over. -/
theorem dobrar_perde_chave_inserida :
    (hashEA.criar 1).inserir "s" "a" 'x' (-2) = some (.ok (), tabelaDepoisDeRedimensionar) ∧
    tabelaDepoisDeRedimensionar.capacidade = 2 * (hashEA.criar 1).capacidade ∧
    tabelaDepoisDeRedimensionar.consultar "a"
      = some (.error .naoEncontradaConsulta, tabelaDepoisDeRedimensionar) :=
  ⟨by rfl, rfl, by rfl⟩

/-- C12 as stated fails on the code: the accumulator of `posicao` is an `unsigned` and
wraps.  For the key `"aaaaaaaa"` the polynomial is 7409554041, above `2^32`; with
capacity 6 `posicao` answers 5 while the polynomial modulo 6 is 3. -/
theorem posicao_difere_do_polinomio :
    polinomioDaChave "aaaaaaaa" = 7409554041 ∧
    (hashEA.criar 6).posicao "aaaaaaaa" = some 5 ∧
    polinomioDaChave "aaaaaaaa" % (hashEA.criar 6).capacidade = 3 :=
  ⟨by rfl, by rfl, by rfl⟩

/-- C12, amended: for every key and every table with `capacidade ≥ 1`, `posicao(key)` is
`(P(key) mod 2^32) mod capacidade`, where `P(key)` starts from 1 and applies
`pos := 13 * pos + charCode` for each character in order (the accumulation wraps at 32
bits); the result is below `capacidade` and is the same for any two tables of equal
capacity. -/
theorem posicao_formula (t t2 : hashEA) (chave : String) (hcap : 1 ≤ t.capacidade)
    (hmesma : t2.capacidade = t.capacidade) :
    t.posicao chave = some (polinomioDaChave chave % 2 ^ 32 % t.capacidade) ∧
    polinomioDaChave chave % 2 ^ 32 % t.capacidade < t.capacidade ∧
    t2.posicao chave = t.posicao chave := by
  refine ⟨?_, Nat.mod_lt _ (by omega), ?_⟩
  · rw [posicao_isSome t chave hcap, acumularPosicao_eq]
  · rw [posicao_isSome t chave hcap, posicao_isSome t2 chave (by omega), hmesma]

/-- Witness of C12: the key `"aaaaaaaa"` on `hashEA(6)` and on `tabelaLapideF`. -/
theorem posicao_formula_witness :
    (hashEA.criar 6).posicao "aaaaaaaa"
      = some (polinomioDaChave "aaaaaaaa" % 2 ^ 32 % (hashEA.criar 6).capacidade) ∧
    polinomioDaChave "aaaaaaaa" % 2 ^ 32 % (hashEA.criar 6).capacidade
      < (hashEA.criar 6).capacidade ∧
    tabelaLapideF.posicao "aaaaaaaa" = (hashEA.criar 6).posicao "aaaaaaaa" :=
  posicao_formula (hashEA.criar 6) tabelaLapideF "aaaaaaaa" (by decide) (by decide)
/-- C15 fails on the code.  On `hashEA(6)` the call `inserir("s", "a", 'x', -2)` stores the
record of `"a"` in slot 2, where `consultar("a")` finds it and returns -2.  The call
`inserir("s", "g", 'x', 5)` then succeeds without a resize and writes slot 2: the slot
changed is not an empty or removed one but the slot that holds the record of `"a"`, which
reads as `REMOVIDO`; afterwards `consultar("a")` throws. -/
theorem inserir_escreve_sobre_registro :
    (hashEA.criar 6).inserir "s" "a" 'x' (-2) = some (.ok (), tabelaAMenosDois) ∧
    tabelaAMenosDois.vetDados[2]? = some (registro "a" (-2)) ∧
    tabelaAMenosDois.consultar "a" = some (.ok (-2), tabelaAMenosDois) ∧
    acimaDoLimite (tabelaAMenosDois.tamanho + 1) tabelaAMenosDois.capacidade = false ∧
    tabelaAMenosDois.inserir "s" "g" 'x' 5 = some (.ok (), tabelaGSobreA) ∧
    tabelaGSobreA.capacidade = tabelaAMenosDois.capacidade ∧
    tabelaGSobreA.vetDados[2]? = some (registro "g" 5) ∧
    tabelaGSobreA.consultar "a" = some (.error .naoEncontradaConsulta, tabelaGSobreA) :=
  ⟨by rfl, by rfl, by rfl, by decide, by rfl, rfl, by rfl, by rfl⟩

/-- C16 fails on the code.  The table `tabelaSemVaga` is built from `hashEA(6)` by
`chamadasSemVaga`; `remover("")` lowered `tamanho` three times without freeing a slot, so
all 6 slots are occupied while `tamanho` is 3.  The call `inserir("s", "h", 'x', 8)` passes
the three checks (`tamanho ≠ capacidade`, `buscarChave("h")` answers `POSINVALIDA`) and
enters the placement loop at slot 3, which finds no `INVALIDO` or `REMOVIDO` slot however
many rounds it runs: the call never returns. -/
theorem inserir_nao_termina :
    Alcancavel 6 tabelaSemVaga ∧
    tabelaSemVaga.tamanho ≠ tabelaSemVaga.capacidade ∧
    tabelaSemVaga.buscarChave "h" = some POSINVALIDA ∧
    tabelaSemVaga.posicao "h" = some 3 ∧
    (∀ n, lacoPosicaoLivre tabelaSemVaga.vetDados tabelaSemVaga.capacidade n 3 = none) ∧
    tabelaSemVaga.inserir "s" "h" 'x' 8 = none :=
  ⟨⟨chamadasSemVaga, by rfl⟩, by decide, by rfl, by rfl,
    fun n => lacoPosicaoLivre_semVaga n 3 (by omega), by rfl⟩

/-- C18 fails on the code.  In `tabelaLapideAG`, built from `hashEA(6)`, `consultar("g")`
returns 2.  The call `inserir("s", "a", 'x', -1)` succeeds (the key `"a"` differs from
`"g"`) and the `consultar("g")` that follows throws "Chave não encontrada para
consulta.": the record written over the tombstone of slot 2 reads as `INVALIDO` and cuts
the probe path of `"g"`. -/
theorem inserir_muda_consulta_de_outra_chave :
    Alcancavel 6 tabelaLapideAG ∧
    tabelaLapideAG.consultar "g" = some (.ok 2, tabelaLapideAG) ∧
    tabelaLapideAG.inserir "s" "a" 'x' (-1) = some (.ok (), tabelaGEscondido) ∧
    tabelaGEscondido.consultar "g"
      = some (.error .naoEncontradaConsulta, tabelaGEscondido) :=
  ⟨⟨[.inserir "s" "a" 'x' 1, .inserir "s" "g" 'x' 2, .remover "a"], by rfl⟩,
    by rfl, by rfl, by rfl⟩

/-- C19: for every table built from `hashEA(cap)`, `cap ≥ 1`, by any sequence of calls
(its capacity being an `unsigned`, below `2^32`), `10 * tamanho ≤ 7 * capacidade`; hence
`tamanho < capacidade` on entry to `inserir`, which never throws "Tabela hash cheia.".
For a table built from `hashEA(0)` every `inserir` of a non-empty key throws it. -/
theorem fator_de_carga (cap : Nat) (ops : List Operacao) (t : hashEA) (hcap : 1 ≤ cap)
    (hrun : (hashEA.criar cap).executarTodas ops = some t) (h32 : t.capacidade < 2 ^ 32) :
    10 * t.tamanho ≤ 7 * t.capacidade ∧
    t.tamanho < t.capacidade ∧
    (∀ assunto interessado tipo valor r t',
      t.inserir assunto interessado tipo valor = some (r, t') → r ≠ .error .tabelaCheia) ∧
    (∀ ops0 t0, (hashEA.criar 0).executarTodas ops0 = some t0 →
      ∀ assunto interessado tipo valor, interessado ≠ "" →
        t0.inserir assunto interessado tipo valor = some (.error .tabelaCheia, t0)) := by
  have hfator := executarTodas_fator ops _ _ hrun h32 (by simp [hashEA.criar])
  have hmono := executarTodas_capacidade ops _ _ hrun
  have hcap1 : 1 ≤ t.capacidade := by
    simp only [hashEA.criar] at hmono
    omega
  have hlt : t.tamanho < t.capacidade := by omega
  refine ⟨hfator, hlt, ?_, ?_⟩
  · intro assunto interessado tipo valor r t' h
    unfold hashEA.inserir at h
    split at h
    · simp only [Option.some.injEq, Prod.mk.injEq] at h
      rw [← h.1]
      simp
    split at h
    · omega
    split at h
    · simp at h
    · simp only [Option.some.injEq, Prod.mk.injEq] at h
      rw [← h.1]
      simp
    split at h
    · simp at h
    split at h
    · simp at h
    dsimp only at h
    split at h
    · split at h
      · simp at h
      · simp only [Option.some.injEq, Prod.mk.injEq] at h
        rw [← h.1]
        simp
    · simp only [Option.some.injEq, Prod.mk.injEq] at h
      rw [← h.1]
      simp
  · intro ops0 t0 h0 assunto interessado tipo valor hk
    rw [executarTodas_capacidade_zero ops0 t0 h0]
    simp [hashEA.inserir, hk, hashEA.criar]

/-- Witness of C19: the table `tabelaABQuatro`, built from `hashEA(2)` by two inserts. -/
theorem fator_de_carga_witness :
    10 * tabelaABQuatro.tamanho ≤ 7 * tabelaABQuatro.capacidade ∧
    tabelaABQuatro.tamanho < tabelaABQuatro.capacidade ∧
    (∀ assunto interessado tipo valor r t',
      tabelaABQuatro.inserir assunto interessado tipo valor = some (r, t') →
        r ≠ .error .tabelaCheia) ∧
    (∀ ops0 t0, (hashEA.criar 0).executarTodas ops0 = some t0 →
      ∀ assunto interessado tipo valor, interessado ≠ "" →
        t0.inserir assunto interessado tipo valor = some (.error .tabelaCheia, t0)) :=
  fator_de_carga 2 [.inserir "s" "a" 'x' 1, .inserir "s" "b" 'x' 2] tabelaABQuatro
    (by decide) (by rfl) (by decide)
/-- C13: for every sequence of `Enfileirar` / `Desenfileirar` / `LimparTudo` calls on a
newly constructed `Fila`, every call returns, the outcomes (element returned, "fila
vazia", "fila cheia") are those of the FIFO list of at most 6 elements, and the elements
the queue holds afterwards are those of the list, in order; `LimparTudo` called then
terminates with the queue empty, whatever the bound given to its loop. -/
theorem fila_refina_lista (memoria : Nat → Dado) (ops : List OperacaoFila) :
    ∃ f, (Fila.criar memoria).executarTodas ops = some ((listaFIFOTodas [] ops).1, f) ∧
      f.conteudo = (listaFIFOTodas [] ops).2 ∧
      (listaFIFOTodas [] ops).2.length ≤ 6 ∧
      (∀ k, Fila.LimparTudoLaco (k + 7) f = some ⟨f.mFila, -1, -1⟩) ∧
      (Fila.mk f.mFila (-1) (-1)).conteudo = [] := by
  obtain ⟨f, hrun, hbem, hcont, hlen⟩ :=
    Fila.executarTodas_refina ops (Fila.criar memoria) (Fila.bemFormada_criar memoria)
      (by rw [Fila.conteudo_criar]; simp)
  rw [Fila.conteudo_criar] at hrun hcont
  refine ⟨f, hrun, hcont, by rw [← hcont]; exact hlen, (Fila.estado_bemFormada f hbem).2.2.2, rfl⟩

/-- C14: in every state of a `Fila` reached from the constructor by a sequence of calls,
`Cheia()` is true exactly when 6 elements are held and `Vazia()` exactly when none is
(the elements held being those of the FIFO list after the same calls); `Enfileirar` throws
"fila cheia" exactly when 6 elements are held; and `posPrimeiro`, `posUltimo` are both -1
or both in `0..5`. -/
theorem cheia_vazia_exatas (memoria : Nat → Dado) (ops : List OperacaoFila)
    (rs : List (Except ErroFila (Option Dado))) (f : Fila)
    (h : (Fila.criar memoria).executarTodas ops = some (rs, f)) :
    (f.Cheia = true ↔ (listaFIFOTodas [] ops).2.length = 6) ∧
    (f.Vazia = true ↔ (listaFIFOTodas [] ops).2.length = 0) ∧
    (∀ d, (∃ f', f.Enfileirar d = some (.error .filaCheia, f')) ↔
      (listaFIFOTodas [] ops).2.length = 6) ∧
    ((f.posPrimeiro = -1 ∧ f.posUltimo = -1) ∨
      (0 ≤ f.posPrimeiro ∧ f.posPrimeiro ≤ 5 ∧ 0 ≤ f.posUltimo ∧ f.posUltimo ≤ 5)) := by
  obtain ⟨f0, hrun, hbem, hcont, -⟩ :=
    Fila.executarTodas_refina ops (Fila.criar memoria) (Fila.bemFormada_criar memoria)
      (by rw [Fila.conteudo_criar]; simp)
  rw [Fila.conteudo_criar] at hrun hcont
  rw [hrun] at h
  simp only [Option.some.injEq, Prod.mk.injEq] at h
  obtain ⟨-, rfl⟩ := h
  obtain ⟨-, hcheia, hvazia, -⟩ := Fila.estado_bemFormada f0 hbem
  rw [hcont] at hcheia hvazia
  refine ⟨hcheia, hvazia, ?_, (posicoesValidas_iff _ _).mp hbem.2⟩
  intro d
  rw [← hcheia]
  unfold Fila.Enfileirar
  constructor
  · rintro ⟨f', hf'⟩
    by_contra hc
    rw [if_neg hc] at hf'
    dsimp only at hf'
    split at hf' <;> simp at hf'
  · intro hc
    exact ⟨f0, by rw [if_pos hc]⟩

/-- Witness of C14: six `Enfileirar` calls fill the queue. -/
theorem cheia_vazia_exatas_witness :
    ((Fila.mk ((List.range 6).map fun i => processo i) 0 5).Cheia = true ↔
      (listaFIFOTodas [] ((List.range 6).map fun i => .Enfileirar (processo i))).2.length = 6) ∧
    ((Fila.mk ((List.range 6).map fun i => processo i) 0 5).Vazia = true ↔
      (listaFIFOTodas [] ((List.range 6).map fun i => .Enfileirar (processo i))).2.length = 0) ∧
    (∀ d, (∃ f', (Fila.mk ((List.range 6).map fun i => processo i) 0 5).Enfileirar d
        = some (.error .filaCheia, f')) ↔
      (listaFIFOTodas [] ((List.range 6).map fun i => .Enfileirar (processo i))).2.length = 6) ∧
    (((Fila.mk ((List.range 6).map fun i => processo i) 0 5).posPrimeiro = -1 ∧
        (Fila.mk ((List.range 6).map fun i => processo i) 0 5).posUltimo = -1) ∨
      (0 ≤ (Fila.mk ((List.range 6).map fun i => processo i) 0 5).posPrimeiro ∧
        (Fila.mk ((List.range 6).map fun i => processo i) 0 5).posPrimeiro ≤ 5 ∧
        0 ≤ (Fila.mk ((List.range 6).map fun i => processo i) 0 5).posUltimo ∧
        (Fila.mk ((List.range 6).map fun i => processo i) 0 5).posUltimo ≤ 5)) :=
  cheia_vazia_exatas (fun _ => processo 0) ((List.range 6).map fun i => .Enfileirar (processo i))
    (List.replicate 6 (.ok none)) (Fila.mk ((List.range 6).map fun i => processo i) 0 5)
    (by rfl)

/-- C17: for every array and indices `l ≤ r` inside it, `mergeSort(arr, l, r)` returns,
the array keeps its length, `arr[l..r]` is sorted in non-decreasing order and is a
permutation of what it was, and the cells before `l` and after `r` are unchanged; a call
with `l ≥ r` changes nothing; and `merge(arr, l, m, r)`, for `l ≤ m ≤ r` and sorted runs
`arr[l..m]` and `arr[m+1..r]`, leaves in `arr[l..r]` the sorted merge of the two runs and
changes nothing else. -/
theorem mergeSort_ordena (arr : List Int) (l r : Nat) (hlr : l ≤ r) (hr : r < arr.length) :
    (∃ res, mergeSort arr l r = some res ∧ res.length = arr.length ∧
      (trecho res l r).Sorted (· ≤ ·) ∧ (trecho res l r).Perm (trecho arr l r) ∧
      res.take l = arr.take l ∧ res.drop (r + 1) = arr.drop (r + 1)) ∧
    (∀ l0 r0, r0 ≤ l0 → mergeSort arr l0 r0 = some arr) ∧
    (∀ m, l ≤ m → m ≤ r → (trecho arr l m).Sorted (· ≤ ·) →
      (trecho arr (m + 1) r).Sorted (· ≤ ·) →
      ∃ res, merge arr l m r = some res ∧ res.length = arr.length ∧
        trecho res l r
          = (trecho arr l m).merge (trecho arr (m + 1) r) (fun a b => decide (a ≤ b)) ∧
        (trecho res l r).Sorted (· ≤ ·) ∧ (trecho res l r).Perm (trecho arr l r) ∧
        res.take l = arr.take l ∧ res.drop (r + 1) = arr.drop (r + 1)) := by
  obtain ⟨harr, hpre, hmid⟩ := trecho_decompor arr l r hlr hr
  have h := mergeSort_ordena_partes (arr.take l) (trecho arr l r) (arr.drop (r + 1)) l r hlr
    hpre hmid
  rw [← harr] at h
  exact ⟨h.1, fun l0 r0 h0 => mergeSort_sem_trabalho arr l0 r0 h0, h.2⟩

/-- Witness of C17: `mergeSort` on the cells `1..5` of a seven-element array. -/
theorem mergeSort_ordena_witness :
    (∃ res, mergeSort [5, 3, 9, 1, 4, 8, 2] 1 5 = some res ∧
      res.length = [5, 3, 9, 1, 4, 8, 2].length ∧
      (trecho res 1 5).Sorted (· ≤ ·) ∧
      (trecho res 1 5).Perm (trecho [5, 3, 9, 1, 4, 8, 2] 1 5) ∧
      res.take 1 = [5, 3, 9, 1, 4, 8, 2].take 1 ∧
      res.drop (5 + 1) = [5, 3, 9, 1, 4, 8, 2].drop (5 + 1)) ∧
    (∀ l0 r0, r0 ≤ l0 → mergeSort [5, 3, 9, 1, 4, 8, 2] l0 r0 = some [5, 3, 9, 1, 4, 8, 2]) ∧
    (∀ m, 1 ≤ m → m ≤ 5 → (trecho [5, 3, 9, 1, 4, 8, 2] 1 m).Sorted (· ≤ ·) →
      (trecho [5, 3, 9, 1, 4, 8, 2] (m + 1) 5).Sorted (· ≤ ·) →
      ∃ res, merge [5, 3, 9, 1, 4, 8, 2] 1 m 5 = some res ∧
        res.length = [5, 3, 9, 1, 4, 8, 2].length ∧
        trecho res 1 5
          = (trecho [5, 3, 9, 1, 4, 8, 2] 1 m).merge (trecho [5, 3, 9, 1, 4, 8, 2] (m + 1) 5)
              (fun a b => decide (a ≤ b)) ∧
        (trecho res 1 5).Sorted (· ≤ ·) ∧
        (trecho res 1 5).Perm (trecho [5, 3, 9, 1, 4, 8, 2] 1 5) ∧
        res.take 1 = [5, 3, 9, 1, 4, 8, 2].take 1 ∧
        res.drop (5 + 1) = [5, 3, 9, 1, 4, 8, 2].drop (5 + 1)) :=
  mergeSort_ordena [5, 3, 9, 1, 4, 8, 2] 1 5 (by decide) (by decide)
